import Mathlib

/-!
Verification development for the Bitrader order-matching and P2P escrow core.

The definitions below are a shallow embedding of the Python source:
`backend/routers/orderbook.py` (order admission, price-time matching,
settlement, cancellation), `backend/routers/wallet.py` (deposit, withdrawal,
transfer), `backend/routers/p2p.py` and `backend/routers/dispute.py`
(the P2P trade / escrow / dispute state machine) and
`backend/services/ad_expiration_service.py` (the advertisement expiration
sweep).  SQLAlchemy `Decimal` columns are modelled as `ℚ`; database rows are
lists of records; `query(...).first()` is first-match lookup; an HTTP error
response is an `Except` error value.
-/

namespace Bitrader

/-- `OrderType` enum of the source (column `order_type`). -/
inductive Side where
  | BUY
  | SELL
deriving DecidableEq, Repr

/-- `OrderBookOrderType` enum of the source (column `order_subtype`). -/
inductive OrderKind where
  | MARKET
  | LIMIT
  | STOP_LOSS
deriving DecidableEq, Repr

/-- `OrderStatus` enum of the source. -/
inductive OStatus where
  | PENDING
  | PARTIALLY_FILLED
  | FILLED
  | CANCELLED
  | EXPIRED
deriving DecidableEq, Repr

/-- `TransactionType` enum of the source (the members the core uses). -/
inductive TxnType where
  | DEPOSIT
  | WITHDRAWAL
  | TRADE
  | P2P_BUY
  | P2P_SELL
  | TRANSFER
deriving DecidableEq, Repr

/-- HTTP-level outcomes of the route handlers.  `crash` stands for an
unhandled Python exception (HTTP 500), as opposed to a structured 4xx
response. -/
inductive ApiError where
  | notFound
  | invalidState
  | invalidArgument
  | insufficientFunds
  | crash
deriving DecidableEq, Repr

/-- `Wallet` model: per (user, currency) balances. -/
structure Wallet where
  id : Nat
  userId : Nat
  currency : String
  available : ℚ
  locked : ℚ
deriving DecidableEq, Repr

/-- `OrderBookOrder` model. -/
structure Order where
  id : Nat
  userId : Nat
  instrument : String
  side : Side
  kind : OrderKind
  price : Option ℚ
  quantity : ℚ
  remaining : ℚ
  status : OStatus
  createdAt : Nat
deriving DecidableEq, Repr

/-- `Trade` model: immutable execution record. -/
structure TradeRec where
  orderId : Nat
  buyerId : Nat
  sellerId : Nat
  instrument : String
  price : ℚ
  quantity : ℚ
  totalAmount : ℚ
  fee : ℚ
deriving DecidableEq, Repr

/-- `Transaction` model (audit row). -/
structure Txn where
  walletId : Nat
  ttype : TxnType
  amount : ℚ
  currency : String
deriving DecidableEq, Repr

/-- The database state the order-book router acts on. -/
structure ExchangeState where
  orders : List Order
  wallets : List Wallet
  trades : List TradeRec
  txns : List Txn
  nextId : Nat
  time : Nat
deriving DecidableEq, Repr

/-- First wallet of a user in a currency
(`db.query(Wallet).filter(user_id, currency).first()`). -/
def findWallet (ws : List Wallet) (uid : Nat) (cur : String) : Option Wallet :=
  ws.find? (fun w => decide (w.userId = uid ∧ w.currency = cur))

/-- Apply `f` to the first wallet of `uid` in `cur`; identity when absent
(the source guards every mutation with `if wallet:`). -/
def updateWallet (uid : Nat) (cur : String) (f : Wallet → Wallet) :
    List Wallet → List Wallet
  | [] => []
  | w :: ws =>
    if w.userId = uid ∧ w.currency = cur then f w :: ws
    else w :: updateWallet uid cur f ws

/-- Add `da` to `available` and `dl` to `locked`. -/
def updBal (da dl : ℚ) (w : Wallet) : Wallet :=
  { w with available := w.available + da, locked := w.locked + dl }

/-- Order lookup by primary key. -/
def findOrderById (os : List Order) (oid : Nat) : Option Order :=
  os.find? (fun o => decide (o.id = oid))

/-- Order lookup by primary key and owner
(`filter(OrderBookOrder.id == order_id, OrderBookOrder.user_id == user)`). -/
def findOrderOwned (os : List Order) (oid uid : Nat) : Option Order :=
  os.find? (fun o => decide (o.id = oid ∧ o.userId = uid))

/-- Set the status of the order with id `oid`. -/
def setOrderStatus (oid : Nat) (st : OStatus) : List Order → List Order
  | [] => []
  | o :: os =>
    if o.id = oid then { o with status := st } :: os
    else o :: setOrderStatus oid st os

/-- `base_currency, quote_currency = instrument.split("/")`; `none` models the
`ValueError` of a malformed instrument. -/
def splitInstrument (s : String) : Option (String × String) :=
  match s.data.splitOn '/' with
  | [b, q] => some (⟨b⟩, ⟨q⟩)
  | _ => none

/-- The side of the resting orders a given aggressor side matches against. -/
def opposite : Side → Side
  | .BUY => .SELL
  | .SELL => .BUY

/-- The SQL price filter of `match_order`: for a priced (limit) BUY aggressor,
`price <= order.price`; for a priced SELL aggressor, `price >= order.price`;
no filter for a price-less (market) aggressor.  A NULL resting price never
satisfies a SQL comparison, hence `false` in the `some`/`none` case. -/
def priceOk (agg o : Order) : Bool :=
  match agg.price with
  | none => true
  | some p =>
    match o.price with
    | none => false
    | some pc =>
      match agg.side with
      | .BUY => decide (pc ≤ p)
      | .SELL => decide (p ≤ pc)

/-- The full candidate filter of `match_order`: same instrument, opposite
side, status PENDING or PARTIALLY_FILLED, not the aggressor row itself, and
the price filter. -/
def isCand (agg o : Order) : Bool :=
  decide (o.instrument = agg.instrument) && decide (o.side = opposite agg.side) &&
    (decide (o.status = OStatus.PENDING) || decide (o.status = OStatus.PARTIALLY_FILLED)) &&
    decide (o.id ≠ agg.id) && priceOk agg o

/-- Strict order on optional prices as SQLite sorts them ascending:
NULL before every value, values by `<`. -/
def optLt (a b : Option ℚ) : Prop :=
  match a, b with
  | none, none => False
  | none, some _ => True
  | some _, none => False
  | some x, some y => x < y

instance instDecOptLt : (a b : Option ℚ) → Decidable (optLt a b)
  | none, none => .isFalse id
  | none, some _ => .isTrue trivial
  | some _, none => .isFalse id
  | some x, some y => inferInstanceAs (Decidable (x < y))

/-- The ORDER BY of the matching query: price ascending for a BUY aggressor,
price descending for a SELL aggressor (SQLite puts NULL prices first in ASC
and last in DESC, which `optLt` reproduces), then `created_at` ascending. -/
def candLe (s : Side) (o1 o2 : Order) : Prop :=
  match s with
  | .BUY => optLt o1.price o2.price ∨ (o1.price = o2.price ∧ o1.createdAt ≤ o2.createdAt)
  | .SELL => optLt o2.price o1.price ∨ (o1.price = o2.price ∧ o1.createdAt ≤ o2.createdAt)

instance instDecCandLe (s : Side) : DecidableRel (candLe s) := fun o1 o2 =>
  match s with
  | .BUY =>
    inferInstanceAs
      (Decidable (optLt o1.price o2.price ∨ (o1.price = o2.price ∧ o1.createdAt ≤ o2.createdAt)))
  | .SELL =>
    inferInstanceAs
      (Decidable (optLt o2.price o1.price ∨ (o1.price = o2.price ∧ o1.createdAt ≤ o2.createdAt)))

/-- The sorted list of matching candidates the engine iterates over. -/
def candList (agg : Order) (orders : List Order) : List Order :=
  List.insertionSort (candLe agg.side) (orders.filter (fun o => isCand agg o))

/-- `execute_trade_settlement` of the source: four guarded ledger legs, in
source order (buyer quote, buyer base, seller base, seller quote), each
appending one TRADE transaction when the wallet exists. -/
def execute_trade_settlement (buyerId sellerId : Nat) (base quote : String)
    (quantity amount fee : ℚ) (ws : List Wallet) (txs : List Txn) :
    List Wallet × List Txn :=
  let s1 :=
    match findWallet ws buyerId quote with
    | none => (ws, txs)
    | some w =>
      (updateWallet buyerId quote (updBal 0 (-amount)) ws,
       txs ++ [⟨w.id, .TRADE, -amount, quote⟩])
  let s2 :=
    match findWallet s1.1 buyerId base with
    | none => s1
    | some w =>
      let received := quantity - quantity * fee / amount
      (updateWallet buyerId base (updBal received 0) s1.1,
       s1.2 ++ [⟨w.id, .TRADE, received, base⟩])
  let s3 :=
    match findWallet s2.1 sellerId base with
    | none => s2
    | some w =>
      (updateWallet sellerId base (updBal 0 (-quantity)) s2.1,
       s2.2 ++ [⟨w.id, .TRADE, -quantity, base⟩])
  match findWallet s3.1 sellerId quote with
  | none => s3
  | some w =>
    (updateWallet sellerId quote (updBal (amount - fee) 0) s3.1,
     s3.2 ++ [⟨w.id, .TRADE, amount - fee, quote⟩])

/-- Quantity/status update applied to each side of a fill. -/
def applyFill (tq : ℚ) (o : Order) : Order :=
  let r := o.remaining - tq
  { o with
    remaining := r,
    status :=
      if r = 0 then .FILLED
      else if r < o.quantity then .PARTIALLY_FILLED
      else o.status }

/-- Result of the matching loop: the aggressor and the candidate list after
the pass (candidates kept positionally), the trades emitted in order, the
wallets and transaction log after the interleaved settlements, and whether
the pass died on an unhandled exception (a price-less candidate making
`trade_quantity * trade_price` a `Decimal * None`). -/
structure MatchOut where
  agg : Order
  cands : List Order
  trades : List TradeRec
  wallets : List Wallet
  txns : List Txn
  crashed : Bool
deriving DecidableEq, Repr

/-- The `for matching_order in matching_orders` loop of `match_order`.  Each
iteration fills `min(remaining, remaining)`, prices the trade at the resting
order's price, settles immediately, and commits; the loop stops when the
aggressor is exhausted.  A price-less candidate raises, aborting the pass
with all earlier iterations already committed. -/
def matchLoop (feeRate : ℚ) (base quote : String) (agg : Order) :
    List Order → List Wallet → List Txn → MatchOut
  | [], ws, txs => ⟨agg, [], [], ws, txs, false⟩
  | c :: cs, ws, txs =>
    if agg.remaining ≤ 0 then ⟨agg, c :: cs, [], ws, txs, false⟩
    else
      match c.price with
      | none => ⟨agg, c :: cs, [], ws, txs, true⟩
      | some tp =>
        let tq := min agg.remaining c.remaining
        let ta := tq * tp
        let fee := ta * feeRate
        let agg' := applyFill tq agg
        let c' := applyFill tq c
        let buyerId := match agg.side with | .BUY => agg.userId | .SELL => c.userId
        let sellerId := match agg.side with | .BUY => c.userId | .SELL => agg.userId
        let tr : TradeRec := ⟨agg.id, buyerId, sellerId, agg.instrument, tp, tq, ta, fee⟩
        let st := execute_trade_settlement buyerId sellerId base quote tq ta fee ws txs
        let rest := matchLoop feeRate base quote agg' cs st.1 st.2
        ⟨rest.agg, c' :: rest.cands, tr :: rest.trades, rest.wallets, rest.txns, rest.crashed⟩

/-- Write the post-pass order values back over the order table by id. -/
def writeBack (orders upd : List Order) : List Order :=
  orders.map (fun o => ((upd.find? (fun u => decide (u.id = o.id))).getD o))

/-- `match_order` of the source: look the aggressor up, build the filtered,
price-time-sorted candidate list, and run the fill loop.  The instrument
split is constant across iterations and is hoisted out of the loop. -/
def match_order (feeRate : ℚ) (s : ExchangeState) (oid : Nat) : ExchangeState :=
  match findOrderById s.orders oid with
  | none => s
  | some agg =>
    if agg.remaining ≤ 0 then s
    else
      match splitInstrument agg.instrument with
      | none => s
      | some bq =>
        let out := matchLoop feeRate bq.1 bq.2 agg (candList agg s.orders) s.wallets s.txns
        { s with
          orders := writeBack s.orders (out.agg :: out.cands),
          wallets := out.wallets,
          trades := s.trades ++ out.trades,
          txns := out.txns }

/-- The body of an order-submission request (`OrderCreate` schema). -/
structure OrderReq where
  instrument : String
  side : Side
  kind : OrderKind
  price : Option ℚ
  quantity : ℚ
deriving DecidableEq, Repr

/-- The price-positivity validation of `create_order`
(`price is not None and price <= 0`). -/
def priceNonpositive : Option ℚ → Bool
  | none => false
  | some p => decide (p ≤ 0)

/-- `create_order` of the source: validations, fund lock (for BUY the
required amount is `quantity * (price or 0)`), order insertion with status
PENDING, then the matching pass (whose exceptions are swallowed). -/
def create_order (feeRate : ℚ) (s : ExchangeState) (uid : Nat) (r : OrderReq) :
    Except ApiError ExchangeState :=
  if r.kind = OrderKind.LIMIT ∧ r.price = none then .error .invalidArgument
  else if priceNonpositive r.price then .error .invalidArgument
  else if r.quantity ≤ 0 then .error .invalidArgument
  else
    match splitInstrument r.instrument with
    | none => .error .invalidArgument
    | some bq =>
      let lockCur := match r.side with | .BUY => bq.2 | .SELL => bq.1
      let required :=
        match r.side with
        | .BUY => r.quantity * (r.price.getD 0)
        | .SELL => r.quantity
      match findWallet s.wallets uid lockCur with
      | none => .error .insufficientFunds
      | some w =>
        if w.available < required then .error .insufficientFunds
        else
          let newOrder : Order :=
            ⟨s.nextId, uid, r.instrument, r.side, r.kind, r.price, r.quantity, r.quantity,
              .PENDING, s.time⟩
          let s2 : ExchangeState :=
            { s with
              wallets := updateWallet uid lockCur (updBal (-required) required) s.wallets,
              orders := s.orders ++ [newOrder],
              nextId := s.nextId + 1,
              time := s.time + 1 }
          .ok (match_order feeRate s2 newOrder.id)

/-- `cancel_order` of the source.  A price-less BUY crashes on
`remaining_quantity * None` before any mutation. -/
def cancel_order (s : ExchangeState) (uid oid : Nat) : Except ApiError ExchangeState :=
  match findOrderOwned s.orders oid uid with
  | none => .error .notFound
  | some o =>
    if ¬(o.status = OStatus.PENDING ∨ o.status = OStatus.PARTIALLY_FILLED) then
      .error .invalidState
    else
      match splitInstrument o.instrument with
      | none => .error .crash
      | some bq =>
        match o.side with
        | .BUY =>
          match o.price with
          | none => .error .crash
          | some p =>
            let la := o.remaining * p
            .ok { s with
                  wallets := updateWallet uid bq.2 (updBal la (-la)) s.wallets,
                  orders := setOrderStatus oid .CANCELLED s.orders }
        | .SELL =>
          .ok { s with
                wallets := updateWallet uid bq.1 (updBal o.remaining (-o.remaining)) s.wallets,
                orders := setOrderStatus oid .CANCELLED s.orders }

/-- `deposit_funds` of the wallet router (request amounts are
schema-validated to be positive). -/
def deposit (s : ExchangeState) (uid : Nat) (cur : String) (amt : ℚ) :
    Except ApiError ExchangeState :=
  match findWallet s.wallets uid cur with
  | none => .error .notFound
  | some w =>
    .ok { s with
          wallets := updateWallet uid cur (updBal amt 0) s.wallets,
          txns := s.txns ++ [⟨w.id, .DEPOSIT, amt, cur⟩] }

/-- `withdraw_funds` of the wallet router.  The audit row records the
(positive) request amount, as in the source. -/
def withdraw (s : ExchangeState) (uid : Nat) (cur : String) (amt : ℚ) :
    Except ApiError ExchangeState :=
  match findWallet s.wallets uid cur with
  | none => .error .notFound
  | some w =>
    if w.available < amt then .error .insufficientFunds
    else
      .ok { s with
            wallets := updateWallet uid cur (updBal (-amt) 0) s.wallets,
            txns := s.txns ++ [⟨w.id, .WITHDRAWAL, amt, cur⟩] }

/-- `transfer_funds` of the wallet router (the recipient resolved to an id). -/
def transfer (s : ExchangeState) (uid recip : Nat) (cur : String) (amt : ℚ) :
    Except ApiError ExchangeState :=
  if amt ≤ 0 then .error .invalidArgument
  else if recip = uid then .error .invalidArgument
  else
    match findWallet s.wallets uid cur with
    | none => .error .insufficientFunds
    | some sw =>
      if sw.available < amt then .error .insufficientFunds
      else
        match findWallet s.wallets recip cur with
        | none => .error .notFound
        | some rw =>
          .ok { s with
                wallets :=
                  updateWallet recip cur (updBal amt 0)
                    (updateWallet uid cur (updBal (-amt) 0) s.wallets),
                txns := s.txns ++ [⟨sw.id, .TRANSFER, -amt, cur⟩, ⟨rw.id, .TRANSFER, amt, cur⟩] }

/-- `P2PTradeStatus` enum of the source. -/
inductive PStatus where
  | PENDING
  | PAYMENT_SENT
  | PAYMENT_RECEIVED
  | COMPLETED
  | CANCELLED
  | DISPUTED
deriving DecidableEq, Repr

/-- Escrow status strings of the source (`"LOCKED"`, `"RELEASED"`,
`"REFUNDED"`). -/
inductive EStatus where
  | LOCKED
  | RELEASED
  | REFUNDED
deriving DecidableEq, Repr

/-- `DisputeStatus` enum of the source. -/
inductive DStatus where
  | OPEN
  | IN_REVIEW
  | UNDER_REVIEW
  | RESOLVED
  | REJECTED
deriving DecidableEq, Repr

/-- Projection of the database onto one P2P trade: the trade's status, its
escrow, its (at most one) dispute row, the seller's crypto wallet — the one
wallet the escrow lock/refund paths touch — and the originating
advertisement's activity flag, available amount, and whether its payment
time limit has passed at the (fixed) current time. -/
structure P2PState where
  tradeStatus : PStatus
  escrowStatus : EStatus
  dispute : Option DStatus
  sellerAvailable : ℚ
  sellerLocked : ℚ
  amount : ℚ
  adActive : Bool
  adAvailable : ℚ
  adExpired : Bool
deriving DecidableEq, Repr

/-- The operations of the P2P trade lifecycle that act on one trade. -/
inductive P2POp where
  | markPaymentSent
  | confirmPayment
  | cancelTrade
  | fileDispute
  | resolveDispute (refundToBuyer releaseToSeller : Bool)
  | sweep
deriving DecidableEq, Repr

/-- Error responses of the P2P/dispute routers. -/
inductive P2PErr where
  | notFound
  | invalidState
  | conflict
deriving DecidableEq, Repr

/-- One step of the P2P lifecycle, from the corresponding route handlers:
`mark_payment_sent`, `confirm_payment` (p2p.py), `cancel_trade` (p2p.py),
`create_dispute` and `resolve_dispute` (dispute.py), and the per-trade part
of `_check_and_expire_ads` (ad_expiration_service.py). -/
def p2p_stepR (s : P2PState) : P2POp → Except P2PErr P2PState
  | .markPaymentSent =>
    match s.tradeStatus with
    | .PENDING => .ok { s with tradeStatus := .PAYMENT_SENT }
    | _ => .error .invalidState
  | .confirmPayment =>
    match s.tradeStatus with
    | .PAYMENT_SENT =>
      .ok { s with
            escrowStatus := .RELEASED,
            sellerLocked := s.sellerLocked - s.amount,
            tradeStatus := .COMPLETED }
    | _ => .error .invalidState
  | .cancelTrade =>
    match s.tradeStatus with
    | .PENDING | .PAYMENT_SENT =>
      .ok { s with
            escrowStatus := .REFUNDED,
            sellerLocked := s.sellerLocked - s.amount,
            sellerAvailable := s.sellerAvailable + s.amount,
            adAvailable := s.adAvailable + s.amount,
            adActive := if 0 < s.adAvailable + s.amount then true else s.adActive,
            tradeStatus := .CANCELLED }
    | _ => .error .invalidState
  | .fileDispute =>
    match s.tradeStatus with
    | .COMPLETED | .CANCELLED => .error .invalidState
    | _ =>
      match s.dispute with
      | some _ => .error .conflict
      | none => .ok { s with dispute := some .OPEN, tradeStatus := .DISPUTED }
  | .resolveDispute refund release =>
    match s.dispute with
    | none => .error .notFound
    | some .RESOLVED => .error .invalidState
    | some _ =>
      match refund, release with
      | true, _ =>
        .ok { s with
              tradeStatus := .CANCELLED, escrowStatus := .REFUNDED,
              dispute := some .RESOLVED }
      | false, true =>
        .ok { s with
              tradeStatus := .COMPLETED, escrowStatus := .RELEASED,
              dispute := some .RESOLVED }
      | false, false => .ok { s with dispute := some .RESOLVED }
  | .sweep =>
    match s.adActive, s.adExpired with
    | true, true =>
      match s.tradeStatus with
      | .PENDING | .PAYMENT_SENT =>
        match s.escrowStatus with
        | .LOCKED =>
          .ok { s with
                adActive := false,
                escrowStatus := .REFUNDED,
                sellerLocked := s.sellerLocked - s.amount,
                sellerAvailable := s.sellerAvailable + s.amount,
                adAvailable := s.adAvailable + s.amount,
                tradeStatus := .CANCELLED }
        | _ =>
          .ok { s with
                adActive := false,
                adAvailable := s.adAvailable + s.amount,
                tradeStatus := .CANCELLED }
      | _ => .ok { s with adActive := false }
    | _, _ => .ok s

/-- A step as the database sees it: a failed request mutates nothing. -/
def p2p_step (s : P2PState) (op : P2POp) : P2PState :=
  match p2p_stepR s op with
  | .ok s' => s'
  | .error _ => s

/-- Run a sequence of P2P operations. -/
def p2p_run (s : P2PState) : List P2POp → P2PState
  | [] => s
  | op :: ops => p2p_run (p2p_step s op) ops

/-- How many steps of a run change the escrow's status. -/
def escrowFlips (s : P2PState) : List P2POp → Nat
  | [] => 0
  | op :: ops =>
    (if (p2p_step s op).escrowStatus = s.escrowStatus then 0 else 1) +
      escrowFlips (p2p_step s op) ops

/-- `P2PAdvertisement` model, the fields the expiration sweep reads. -/
structure Ad where
  id : Nat
  isActive : Bool
  availableAmount : ℚ
  createdAt : Nat
  paymentTimeLimit : Nat
deriving DecidableEq, Repr

/-- `P2PTrade` model, the fields the expiration sweep reads. -/
structure PTrade where
  id : Nat
  adId : Nat
  buyerId : Nat
  sellerId : Nat
  amount : ℚ
  currency : String
  status : PStatus
  escrowId : Nat
deriving DecidableEq, Repr

/-- `Escrow` model. -/
structure EscrowRec where
  id : Nat
  status : EStatus
deriving DecidableEq, Repr

/-- The database state the expiration sweep acts on. -/
structure SweepState where
  ads : List Ad
  trades : List PTrade
  escrows : List EscrowRec
  wallets : List Wallet
deriving DecidableEq, Repr

def findEscrow (es : List EscrowRec) (eid : Nat) : Option EscrowRec :=
  es.find? (fun e => decide (e.id = eid))

def setEscrowStatus (eid : Nat) (st : EStatus) : List EscrowRec → List EscrowRec
  | [] => []
  | e :: es =>
    if e.id = eid then { e with status := st } :: es
    else e :: setEscrowStatus eid st es

/-- The escrow-refund part of the sweep: only a still-LOCKED escrow is
refunded and only then is the seller's wallet unlocked. -/
def refundEscrowOfTrade (t : PTrade) (es : List EscrowRec) (ws : List Wallet) :
    List EscrowRec × List Wallet :=
  match findEscrow es t.escrowId with
  | none => (es, ws)
  | some e =>
    if e.status = EStatus.LOCKED then
      (setEscrowStatus t.escrowId .REFUNDED es,
       updateWallet t.sellerId t.currency (updBal t.amount (-t.amount)) ws)
    else (es, ws)

/-- Trades list, escrows, wallets, and the total advertisement amount
restored after cancelling one expired ad's open trades. -/
structure TradeSweep where
  trades : List PTrade
  escrows : List EscrowRec
  wallets : List Wallet
  restored : ℚ
deriving DecidableEq, Repr

/-- Cancel every PENDING or PAYMENT_SENT trade of the advertisement `adId`:
refund its escrow (when still LOCKED), unlock the seller, restore the ad's
available amount, and set the trade CANCELLED. -/
def expireTrades (adId : Nat) : List PTrade → List EscrowRec → List Wallet → TradeSweep
  | [], es, ws => ⟨[], es, ws, 0⟩
  | t :: ts, es, ws =>
    if t.adId = adId ∧ (t.status = PStatus.PENDING ∨ t.status = PStatus.PAYMENT_SENT) then
      let rw := refundEscrowOfTrade t es ws
      let rest := expireTrades adId ts rw.1 rw.2
      ⟨{ t with status := .CANCELLED } :: rest.trades, rest.escrows, rest.wallets,
        rest.restored + t.amount⟩
    else
      let rest := expireTrades adId ts es ws
      ⟨t :: rest.trades, rest.escrows, rest.wallets, rest.restored⟩

/-- `now > ad.created_at + timedelta(minutes=ad.payment_time_limit)`,
with time counted in minutes. -/
def adExpiredAt (now : Nat) (ad : Ad) : Bool :=
  decide (ad.createdAt + ad.paymentTimeLimit < now)

/-- Result of processing one expired advertisement. -/
structure AdStep where
  ad : Ad
  trades : List PTrade
  escrows : List EscrowRec
  wallets : List Wallet
deriving DecidableEq, Repr

/-- Deactivate one expired advertisement and cancel its open trades. -/
def processAd (ad : Ad) (ts : List PTrade) (es : List EscrowRec) (ws : List Wallet) :
    AdStep :=
  let ex := expireTrades ad.id ts es ws
  ⟨{ ad with isActive := false, availableAmount := ad.availableAmount + ex.restored },
    ex.trades, ex.escrows, ex.wallets⟩

/-- The loop of `_check_and_expire_ads` over the snapshot of active ads:
every active ad past its expiry is processed, the rest are untouched. -/
def sweepGo (now : Nat) : List Ad → List PTrade → List EscrowRec → List Wallet → SweepState
  | [], ts, es, ws => ⟨[], ts, es, ws⟩
  | ad :: ads, ts, es, ws =>
    if ad.isActive = true ∧ adExpiredAt now ad = true then
      let pa := processAd ad ts es ws
      let rest := sweepGo now ads pa.trades pa.escrows pa.wallets
      ⟨pa.ad :: rest.ads, rest.trades, rest.escrows, rest.wallets⟩
    else
      let rest := sweepGo now ads ts es ws
      ⟨ad :: rest.ads, rest.trades, rest.escrows, rest.wallets⟩

/-- `_check_and_expire_ads` of the expiration service at a fixed `now`. -/
def check_and_expire_ads (now : Nat) (s : SweepState) : SweepState :=
  sweepGo now s.ads s.trades s.escrows s.wallets

instance instDecEqExcept {ε α : Type _} [DecidableEq ε] [DecidableEq α] :
    DecidableEq (Except ε α) := fun a b =>
  match a, b with
  | .error e, .error f =>
    if h : e = f then .isTrue (by rw [h]) else .isFalse (by intro hh; cases hh; exact h rfl)
  | .error _, .ok _ => .isFalse (by intro hh; cases hh)
  | .ok _, .error _ => .isFalse (by intro hh; cases hh)
  | .ok x, .ok y =>
    if h : x = y then .isTrue (by rw [h]) else .isFalse (by intro hh; cases hh; exact h rfl)

/-! ### Lemmas about wallet lookup and update -/

theorem updBal_keys (da dl : ℚ) (w : Wallet) :
    (updBal da dl w).userId = w.userId ∧ (updBal da dl w).currency = w.currency := by
  simp [updBal]

theorem findWallet_update_same (uid : Nat) (cur : String) (da dl : ℚ) (ws : List Wallet) :
    findWallet (updateWallet uid cur (updBal da dl) ws) uid cur
      = (findWallet ws uid cur).map (updBal da dl) := by
  induction ws with
  | nil => simp [updateWallet, findWallet]
  | cons w ws ih =>
    by_cases h : w.userId = uid ∧ w.currency = cur
    · simp [updateWallet, findWallet, List.find?, h, updBal]
    · have hd : (decide (w.userId = uid ∧ w.currency = cur)) = false := by
        simpa using h
      simp only [updateWallet, if_neg h, findWallet, List.find?, hd] at ih ⊢
      exact ih

theorem findWallet_update_other (uid uid' : Nat) (cur cur' : String) (da dl : ℚ)
    (ws : List Wallet) (h : uid ≠ uid' ∨ cur ≠ cur') :
    findWallet (updateWallet uid' cur' (updBal da dl) ws) uid cur
      = findWallet ws uid cur := by
  induction ws with
  | nil => simp [updateWallet, findWallet]
  | cons w ws ih =>
    by_cases h1 : w.userId = uid' ∧ w.currency = cur'
    · have h2 : ¬(w.userId = uid ∧ w.currency = cur) := by
        rcases h with h | h
        · intro hc; exact h (hc.1 ▸ h1.1 ▸ rfl)
        · intro hc; exact h (hc.2 ▸ h1.2 ▸ rfl)
      rw [updateWallet, if_pos h1]
      rw [findWallet, List.find?, findWallet, List.find?]
      have hd2 : (decide ((updBal da dl w).userId = uid ∧ (updBal da dl w).currency = cur))
          = false := by simpa [updBal] using h2
      have hd2' : (decide (w.userId = uid ∧ w.currency = cur)) = false := by simpa using h2
      simp only [hd2, hd2']
    · rw [updateWallet, if_neg h1]
      rw [findWallet, List.find?, findWallet, List.find?]
      by_cases h2 : w.userId = uid ∧ w.currency = cur
      · have hd : (decide (w.userId = uid ∧ w.currency = cur)) = true := by simpa using h2
        simp only [hd]
      · have hd : (decide (w.userId = uid ∧ w.currency = cur)) = false := by simpa using h2
        simp only [hd]
        exact ih

theorem updBal_zero (w : Wallet) : updBal 0 0 w = w := by
  simp [updBal]

/-! ### C4: settlement ledger legs -/

/-- C4.  For a trade with the given quantity, notional `amount` and `fee`,
when the buyer's quote, buyer's base, seller's base and seller's quote
wallets all exist (buyer and seller distinct, base and quote distinct, and a
nonzero notional so that the source's division is defined),
`execute_trade_settlement` performs exactly the four legs: the buyer's quote
locked balance decreases by the notional, the buyer's base available balance
increases by `quantity - quantity*fee/amount`, the seller's base locked
balance decreases by the quantity, and the seller's quote available balance
increases by `amount - fee`. -/
theorem settlement_moves_funds
    (buyerId sellerId : Nat) (base quote : String) (qty amount fee : ℚ)
    (ws : List Wallet) (txs : List Txn)
    (hbs : buyerId ≠ sellerId) (hbq : base ≠ quote) (hamt : amount ≠ 0)
    (wq wb sb sq : Wallet)
    (h1 : findWallet ws buyerId quote = some wq)
    (h2 : findWallet ws buyerId base = some wb)
    (h3 : findWallet ws sellerId base = some sb)
    (h4 : findWallet ws sellerId quote = some sq) :
    (findWallet
        (execute_trade_settlement buyerId sellerId base quote qty amount fee ws txs).1
        buyerId quote
      = some { wq with locked := wq.locked - amount }) ∧
    (findWallet
        (execute_trade_settlement buyerId sellerId base quote qty amount fee ws txs).1
        buyerId base
      = some { wb with available := wb.available + (qty - qty * fee / amount) }) ∧
    (findWallet
        (execute_trade_settlement buyerId sellerId base quote qty amount fee ws txs).1
        sellerId base
      = some { sb with locked := sb.locked - qty }) ∧
    (findWallet
        (execute_trade_settlement buyerId sellerId base quote qty amount fee ws txs).1
        sellerId quote
      = some { sq with available := sq.available + (amount - fee) }) := by
  have h2' : findWallet (updateWallet buyerId quote (updBal 0 (-amount)) ws) buyerId base
      = some wb := by
    rw [findWallet_update_other _ _ _ _ _ _ _ (Or.inr hbq)]; exact h2
  have h3' : findWallet
      (updateWallet buyerId base (updBal (qty - qty * fee / amount) 0)
        (updateWallet buyerId quote (updBal 0 (-amount)) ws)) sellerId base
      = some sb := by
    rw [findWallet_update_other _ _ _ _ _ _ _ (Or.inl (Ne.symm hbs)),
      findWallet_update_other _ _ _ _ _ _ _ (Or.inl (Ne.symm hbs))]
    exact h3
  have h4' : findWallet
      (updateWallet sellerId base (updBal 0 (-qty))
        (updateWallet buyerId base (updBal (qty - qty * fee / amount) 0)
          (updateWallet buyerId quote (updBal 0 (-amount)) ws))) sellerId quote
      = some sq := by
    rw [findWallet_update_other _ _ _ _ _ _ _ (Or.inr (Ne.symm hbq)),
      findWallet_update_other _ _ _ _ _ _ _ (Or.inl (Ne.symm hbs)),
      findWallet_update_other _ _ _ _ _ _ _ (Or.inl (Ne.symm hbs))]
    exact h4
  simp only [execute_trade_settlement, h1, h2', h3', h4']
  refine ⟨?_, ?_, ?_, ?_⟩
  · rw [findWallet_update_other _ _ _ _ _ _ _ (Or.inl hbs),
      findWallet_update_other _ _ _ _ _ _ _ (Or.inl hbs),
      findWallet_update_other _ _ _ _ _ _ _ (Or.inr (Ne.symm hbq)),
      findWallet_update_same, h1]
    simp [updBal, sub_eq_add_neg]
  · rw [findWallet_update_other _ _ _ _ _ _ _ (Or.inl hbs),
      findWallet_update_other _ _ _ _ _ _ _ (Or.inl hbs),
      findWallet_update_same, h2']
    simp [updBal]
  · rw [findWallet_update_other _ _ _ _ _ _ _ (Or.inr hbq),
      findWallet_update_same, h3']
    simp [updBal, sub_eq_add_neg]
  · rw [findWallet_update_same, h4']
    simp [updBal]

/-- C4 witness: a concrete trade (quantity 2, notional 8, fee 1) against four
concrete wallets, settled through `execute_trade_settlement`. -/
theorem settlement_moves_funds_witness :
    ((1 : Nat) ≠ 2 ∧ ("BTC" : String) ≠ "USD" ∧ (8 : ℚ) ≠ 0 ∧
      findWallet
        [⟨1, 1, "USD", 3, 9⟩, ⟨2, 1, "BTC", 4, 0⟩, ⟨3, 2, "BTC", 0, 6⟩, ⟨4, 2, "USD", 1, 0⟩]
        1 "USD" = some ⟨1, 1, "USD", 3, 9⟩) ∧
    findWallet
      (execute_trade_settlement 1 2 "BTC" "USD" 2 8 1
        [⟨1, 1, "USD", 3, 9⟩, ⟨2, 1, "BTC", 4, 0⟩, ⟨3, 2, "BTC", 0, 6⟩, ⟨4, 2, "USD", 1, 0⟩]
        []).1 1 "USD"
      = some { (⟨1, 1, "USD", 3, 9⟩ : Wallet) with locked := (⟨1, 1, "USD", 3, 9⟩ : Wallet).locked - 8 } :=
  ⟨⟨by decide, by decide, by decide, by decide⟩,
    (settlement_moves_funds 1 2 "BTC" "USD" 2 8 1
      [⟨1, 1, "USD", 3, 9⟩, ⟨2, 1, "BTC", 4, 0⟩, ⟨3, 2, "BTC", 0, 6⟩, ⟨4, 2, "USD", 1, 0⟩]
      [] (by decide) (by decide) (by decide)
      ⟨1, 1, "USD", 3, 9⟩ ⟨2, 1, "BTC", 4, 0⟩ ⟨3, 2, "BTC", 0, 6⟩ ⟨4, 2, "USD", 1, 0⟩
      (by decide) (by decide) (by decide) (by decide)).1⟩

/-! ### C5: audit rows -/

/-- C5 (amended).  Each of the four settlement legs appends exactly one
TRADE Transaction row carrying the leg's signed delta, when the four wallets
exist and are distinct. -/
theorem settlement_txn_rows
    (buyerId sellerId : Nat) (base quote : String) (qty amount fee : ℚ)
    (ws : List Wallet) (txs : List Txn)
    (hbs : buyerId ≠ sellerId) (hbq : base ≠ quote)
    (wq wb sb sq : Wallet)
    (h1 : findWallet ws buyerId quote = some wq)
    (h2 : findWallet ws buyerId base = some wb)
    (h3 : findWallet ws sellerId base = some sb)
    (h4 : findWallet ws sellerId quote = some sq) :
    (execute_trade_settlement buyerId sellerId base quote qty amount fee ws txs).2
      = txs ++
        [⟨wq.id, .TRADE, -amount, quote⟩,
         ⟨wb.id, .TRADE, qty - qty * fee / amount, base⟩,
         ⟨sb.id, .TRADE, -qty, base⟩,
         ⟨sq.id, .TRADE, amount - fee, quote⟩] := by
  have h2' : findWallet (updateWallet buyerId quote (updBal 0 (-amount)) ws) buyerId base
      = some wb := by
    rw [findWallet_update_other _ _ _ _ _ _ _ (Or.inr hbq)]; exact h2
  have h3' : findWallet
      (updateWallet buyerId base (updBal (qty - qty * fee / amount) 0)
        (updateWallet buyerId quote (updBal 0 (-amount)) ws)) sellerId base
      = some sb := by
    rw [findWallet_update_other _ _ _ _ _ _ _ (Or.inl (Ne.symm hbs)),
      findWallet_update_other _ _ _ _ _ _ _ (Or.inl (Ne.symm hbs))]
    exact h3
  have h4' : findWallet
      (updateWallet sellerId base (updBal 0 (-qty))
        (updateWallet buyerId base (updBal (qty - qty * fee / amount) 0)
          (updateWallet buyerId quote (updBal 0 (-amount)) ws))) sellerId quote
      = some sq := by
    rw [findWallet_update_other _ _ _ _ _ _ _ (Or.inr (Ne.symm hbq)),
      findWallet_update_other _ _ _ _ _ _ _ (Or.inl (Ne.symm hbs)),
      findWallet_update_other _ _ _ _ _ _ _ (Or.inl (Ne.symm hbs))]
    exact h4
  simp only [execute_trade_settlement, h1, h2', h3', h4']
  simp

/-- C5 witness: the four audit rows appended by a concrete settlement. -/
theorem settlement_txn_rows_witness :
    ((1 : Nat) ≠ 2 ∧ ("BTC" : String) ≠ "USD" ∧
      findWallet
        [⟨1, 1, "USD", 3, 9⟩, ⟨2, 1, "BTC", 4, 0⟩, ⟨3, 2, "BTC", 0, 6⟩, ⟨4, 2, "USD", 1, 0⟩]
        1 "USD" = some ⟨1, 1, "USD", 3, 9⟩) ∧
    (execute_trade_settlement 1 2 "BTC" "USD" 2 8 1
        [⟨1, 1, "USD", 3, 9⟩, ⟨2, 1, "BTC", 4, 0⟩, ⟨3, 2, "BTC", 0, 6⟩, ⟨4, 2, "USD", 1, 0⟩]
        []).2
      = [] ++
        [⟨1, .TRADE, -8, "USD"⟩, ⟨2, .TRADE, 2 - 2 * 1 / 8, "BTC"⟩,
         ⟨3, .TRADE, -2, "BTC"⟩, ⟨4, .TRADE, 8 - 1, "USD"⟩] :=
  ⟨⟨by decide, by decide, by decide⟩,
    settlement_txn_rows 1 2 "BTC" "USD" 2 8 1
      [⟨1, 1, "USD", 3, 9⟩, ⟨2, 1, "BTC", 4, 0⟩, ⟨3, 2, "BTC", 0, 6⟩, ⟨4, 2, "USD", 1, 0⟩]
      [] (by decide) (by decide)
      ⟨1, 1, "USD", 3, 9⟩ ⟨2, 1, "BTC", 4, 0⟩ ⟨3, 2, "BTC", 0, 6⟩ ⟨4, 2, "USD", 1, 0⟩
      (by decide) (by decide) (by decide) (by decide)⟩

/-! ### A concrete two-order scenario, shared by several counterexamples.
User 1 holds 1 BTC; user 2 holds a USD wallet with zero balance.  User 1
submits SELL 1 BTC/USD at limit 100; user 2 submits a price-less market BUY
for 1 BTC/USD. -/

def exS0 : ExchangeState := ⟨[], [⟨1, 1, "BTC", 1, 0⟩, ⟨2, 2, "USD", 0, 0⟩], [], [], 1, 0⟩

def reqSell : OrderReq := ⟨"BTC/USD", .SELL, .LIMIT, some 100, 1⟩

def reqBuy : OrderReq := ⟨"BTC/USD", .BUY, .MARKET, none, 1⟩

/-- State after the SELL submission: 1 BTC moved from available to locked,
the order resting PENDING, and no Transaction row appended. -/
def exS1 : ExchangeState :=
  ⟨[⟨1, 1, "BTC/USD", .SELL, .LIMIT, some 100, 1, 1, .PENDING, 0⟩],
   [⟨1, 1, "BTC", 0, 1⟩, ⟨2, 2, "USD", 0, 0⟩], [], [], 2, 1⟩

/-- State after the market BUY: both orders FILLED, one trade at the resting
price 100, and the buyer's USD wallet at locked -100. -/
def exS2 : ExchangeState :=
  ⟨[⟨1, 1, "BTC/USD", .SELL, .LIMIT, some 100, 1, 0, .FILLED, 0⟩,
    ⟨2, 2, "BTC/USD", .BUY, .MARKET, none, 1, 0, .FILLED, 1⟩],
   [⟨1, 1, "BTC", 0, 0⟩, ⟨2, 2, "USD", 0, -100⟩],
   [⟨2, 2, 1, "BTC/USD", 100, 1, 100, 1/10⟩],
   [⟨2, .TRADE, -100, "USD"⟩, ⟨1, .TRADE, -1, "BTC"⟩], 3, 2⟩

theorem run_sell : create_order (1/1000) exS0 1 reqSell = .ok exS1 := by
  have hsplit : splitInstrument "BTC/USD" = some ("BTC", "USD") := by decide
  norm_num [create_order, exS0, reqSell, hsplit, findWallet, updateWallet, updBal,
    match_order, findOrderById, candList, isCand, priceOk, opposite, matchLoop,
    writeBack, exS1, List.find?, List.filter, List.insertionSort, priceNonpositive]
  exact fun h => Option.noConfusion h

theorem run_buy : create_order (1/1000) exS1 2 reqBuy = .ok exS2 := by
  have hsplit : splitInstrument "BTC/USD" = some ("BTC", "USD") := by decide
  have hne1 : ("USD" : String) ≠ "BTC" := by decide
  have hne2 : ("BTC" : String) ≠ "USD" := by decide
  norm_num [hne1, hne2, create_order, exS1, reqBuy, hsplit, findWallet, updateWallet,
    updBal, match_order, findOrderById, candList, isCand, priceOk, opposite, matchLoop,
    writeBack, exS2, List.find?, List.filter, List.insertionSort, List.orderedInsert,
    priceNonpositive, applyFill, execute_trade_settlement]
  exact fun h => nomatch h

/-- C5 counterexample.  The fund lock performed by `create_order` mutates the
seller's BTC wallet (1 available, 0 locked becomes 0 available, 1 locked)
yet appends no Transaction row at all: the submission's audit trail is
empty, refuting "every operation that mutates a wallet's balance appends
exactly one Transaction row". -/
theorem order_lock_appends_no_txn :
    findWallet exS0.wallets 1 "BTC" = some ⟨1, 1, "BTC", 1, 0⟩ ∧
    exS0.txns = [] ∧
    create_order (1/1000) exS0 1 reqSell = .ok exS1 ∧
    findWallet exS1.wallets 1 "BTC" = some ⟨1, 1, "BTC", 0, 1⟩ ∧
    exS1.txns = [] :=
  ⟨by decide, by decide, run_sell, by decide, by decide⟩

/-! ### C3: the balance invariant -/

/-- The account invariant of the specification. -/
def walletsNonneg (ws : List Wallet) : Prop :=
  ∀ w ∈ ws, 0 ≤ w.available ∧ 0 ≤ w.locked

instance instDecWalletsNonneg (ws : List Wallet) : Decidable (walletsNonneg ws) :=
  inferInstanceAs (Decidable (∀ w ∈ ws, 0 ≤ w.available ∧ 0 ≤ w.locked))

/-- C3 counterexample.  From a state whose wallets all satisfy
`available >= 0 ∧ locked >= 0`, submitting a resting SELL and then a
price-less market BUY (admitted with a lock of `quantity * 0 = 0`) leaves
the buyer's USD wallet with `locked = -100 < 0`: the invariant does not
survive the settlement of the matched market order. -/
theorem negative_locked_balance_reachable :
    walletsNonneg exS0.wallets ∧
    create_order (1/1000) exS0 1 reqSell = .ok exS1 ∧
    create_order (1/1000) exS1 2 reqBuy = .ok exS2 ∧
    findWallet exS2.wallets 2 "USD" = some ⟨2, 2, "USD", 0, -100⟩ ∧
    ¬(0 ≤ (-100 : ℚ)) :=
  ⟨by decide, run_sell, run_buy, by decide, by decide⟩

theorem updateWallet_mem (uid : Nat) (cur : String) (f : Wallet → Wallet)
    (ws : List Wallet) (w0 : Wallet) (hf : findWallet ws uid cur = some w0) :
    ∀ x ∈ updateWallet uid cur f ws, x ∈ ws ∨ x = f w0 := by
  induction ws with
  | nil => simp [updateWallet]
  | cons w ws ih =>
    by_cases h : w.userId = uid ∧ w.currency = cur
    · have hd : (decide (w.userId = uid ∧ w.currency = cur)) = true := by simpa using h
      have hw0 : w0 = w := by
        rw [findWallet, List.find?, hd] at hf
        exact (Option.some.injEq _ _ ▸ hf.symm)
      subst hw0
      intro x hx
      rw [updateWallet, if_pos h] at hx
      rcases List.mem_cons.mp hx with hx | hx
      · exact Or.inr hx
      · exact Or.inl (List.mem_cons_of_mem _ hx)
    · have hd : (decide (w.userId = uid ∧ w.currency = cur)) = false := by simpa using h
      rw [findWallet, List.find?, hd] at hf
      intro x hx
      rw [updateWallet, if_neg h] at hx
      rcases List.mem_cons.mp hx with hx | hx
      · exact Or.inl (hx ▸ List.mem_cons_self _ _)
      · rcases ih hf x hx with hx' | hx'
        · exact Or.inl (List.mem_cons_of_mem _ hx')
        · exact Or.inr hx'

/-- C3 (amended).  The invariant `available >= 0 ∧ locked >= 0` is preserved
by the wallet router's operations — deposit, withdrawal and transfer, whose
request amounts are schema-validated positive — though not by every
operation of the system (see the matched-market-BUY counterexample). -/
theorem wallet_ops_preserve_nonneg (s : ExchangeState) (uid recip : Nat) (cur : String)
    (amt : ℚ) (s1 s2 s3 : ExchangeState)
    (hn : walletsNonneg s.wallets) (hamt : 0 < amt) :
    (deposit s uid cur amt = .ok s1 → walletsNonneg s1.wallets) ∧
    (withdraw s uid cur amt = .ok s2 → walletsNonneg s2.wallets) ∧
    (transfer s uid recip cur amt = .ok s3 → walletsNonneg s3.wallets) := by
  refine ⟨?_, ?_, ?_⟩
  · intro h
    rcases hfw : findWallet s.wallets uid cur with _ | w
    · simp [deposit, hfw] at h
    · have hwmem : w ∈ s.wallets := List.mem_of_find?_eq_some hfw
      simp only [deposit, hfw, Except.ok.injEq] at h
      subst h
      intro x hx
      rcases updateWallet_mem uid cur _ s.wallets w hfw x hx with hx' | hx'
      · exact hn x hx'
      · subst hx'
        refine ⟨?_, ?_⟩
        · simpa [updBal] using add_nonneg (hn w hwmem).1 hamt.le
        · simpa [updBal] using (hn w hwmem).2
  · intro h
    rcases hfw : findWallet s.wallets uid cur with _ | w
    · simp [withdraw, hfw] at h
    · have hwmem : w ∈ s.wallets := List.mem_of_find?_eq_some hfw
      by_cases hlt : w.available < amt
      · simp [withdraw, hfw, hlt] at h
      · simp only [withdraw, hfw, if_neg hlt, Except.ok.injEq] at h
        subst h
        intro x hx
        rcases updateWallet_mem uid cur _ s.wallets w hfw x hx with hx' | hx'
        · exact hn x hx'
        · subst hx'
          refine ⟨?_, ?_⟩
          · have : amt ≤ w.available := le_of_not_lt hlt
            simpa [updBal, ← sub_eq_add_neg] using sub_nonneg.mpr this
          · simpa [updBal] using (hn w hwmem).2
  · intro h
    have hle : ¬(amt ≤ 0) := not_le.mpr hamt
    by_cases heq : recip = uid
    · simp [transfer, hle, heq] at h
    · rcases hfs : findWallet s.wallets uid cur with _ | sw
      · simp [transfer, hle, heq, hfs] at h
      · have hsmem : sw ∈ s.wallets := List.mem_of_find?_eq_some hfs
        by_cases hlt : sw.available < amt
        · simp [transfer, hle, heq, hfs, hlt] at h
        · rcases hfr : findWallet s.wallets recip cur with _ | rw
          · simp [transfer, hle, heq, hfs, hlt, hfr] at h
          · simp only [transfer, if_neg hle, if_neg heq, hfs, if_neg hlt, hfr,
              Except.ok.injEq] at h
            subst h
            intro x hx
            have hn1 : walletsNonneg (updateWallet uid cur (updBal (-amt) 0) s.wallets) := by
              intro y hy
              rcases updateWallet_mem uid cur _ s.wallets sw hfs y hy with hy' | hy'
              · exact hn y hy'
              · subst hy'
                refine ⟨?_, ?_⟩
                · have : amt ≤ sw.available := le_of_not_lt hlt
                  simpa [updBal, ← sub_eq_add_neg] using sub_nonneg.mpr this
                · simpa [updBal] using (hn sw hsmem).2
            have hfr1 : findWallet (updateWallet uid cur (updBal (-amt) 0) s.wallets) recip cur
                = some rw := by
              rw [findWallet_update_other _ _ _ _ _ _ _ (Or.inl heq)]
              exact hfr
            have hrmem1 : rw ∈ updateWallet uid cur (updBal (-amt) 0) s.wallets :=
              List.mem_of_find?_eq_some hfr1
            rcases updateWallet_mem recip cur _ _ rw hfr1 x hx with hx' | hx'
            · exact hn1 x hx'
            · subst hx'
              refine ⟨?_, ?_⟩
              · simpa [updBal] using add_nonneg (hn1 rw hrmem1).1 hamt.le
              · simpa [updBal] using (hn1 rw hrmem1).2

/-- C3 witness for the amended preservation theorem: a concrete deposit. -/
theorem wallet_ops_preserve_nonneg_witness :
    (walletsNonneg [⟨(1 : Nat), 1, "USD", 5, 2⟩] ∧ (0 : ℚ) < 3) ∧
    (deposit ⟨[], [⟨1, 1, "USD", 5, 2⟩], [], [], 1, 0⟩ 1 "USD" 3 =
        .ok ⟨[], [⟨1, 1, "USD", 5 + 3, 2 + 0⟩], [], [⟨1, .DEPOSIT, 3, "USD"⟩], 1, 0⟩ →
      walletsNonneg
        (⟨[], [⟨1, 1, "USD", 5 + 3, 2 + 0⟩], [], [⟨1, .DEPOSIT, 3, "USD"⟩], 1, 0⟩ :
          ExchangeState).wallets) :=
  ⟨⟨by decide, by decide⟩,
    (wallet_ops_preserve_nonneg ⟨[], [⟨1, 1, "USD", 5, 2⟩], [], [], 1, 0⟩ 1 2 "USD" 3
      ⟨[], [⟨1, 1, "USD", 5 + 3, 2 + 0⟩], [], [⟨1, .DEPOSIT, 3, "USD"⟩], 1, 0⟩
      ⟨[], [], [], [], 0, 0⟩ ⟨[], [], [], [], 0, 0⟩ (by decide) (by decide)).1⟩

/-! ### C10: price-less market BUY orders lock nothing -/

theorem findOrderById_append_fresh (l : List Order) (a : Order)
    (h : ∀ o ∈ l, o.id ≠ a.id) : findOrderById (l ++ [a]) a.id = some a := by
  induction l with
  | nil => simp [findOrderById, List.find?]
  | cons o l ih =>
    have hd : (decide (o.id = a.id)) = false := by
      simpa using h o (List.mem_cons_self _ _)
    rw [List.cons_append, findOrderById, List.find?, hd]
    exact ih fun o' ho' => h o' (List.mem_cons_of_mem _ ho')

theorem writeBack_snoc_fresh (l : List Order) (a : Order)
    (h : ∀ o ∈ l, o.id ≠ a.id) : writeBack (l ++ [a]) [a] = l ++ [a] := by
  induction l with
  | nil => simp [writeBack, List.find?]
  | cons o l ih =>
    have hd : (decide (a.id = o.id)) = false := by
      simpa using (h o (List.mem_cons_self _ _)).symm
    rw [List.cons_append, writeBack, List.map_cons]
    rw [writeBack] at ih
    rw [ih fun o' ho' => h o' (List.mem_cons_of_mem _ ho')]
    simp [List.find?, hd]

theorem candList_eq_nil (agg : Order) (orders : List Order)
    (h : ∀ o ∈ orders, isCand agg o = false) : candList agg orders = [] := by
  have hf : orders.filter (fun o => isCand agg o) = [] := by
    rw [List.filter_eq_nil]
    intro a ha
    simp [h a ha]
  simp [candList, hf]

/-- The buyer-quote leg of settlement debits the full notional from the
buyer's quote locked balance, whatever the other three wallets are. -/
theorem settlement_debits_buyer_quote (bId sId : Nat) (b q : String)
    (qty amount fee : ℚ) (ws : List Wallet) (txs : List Txn)
    (hbs : bId ≠ sId) (hbq : b ≠ q) (wq : Wallet)
    (hwq : findWallet ws bId q = some wq) :
    findWallet (execute_trade_settlement bId sId b q qty amount fee ws txs).1 bId q
      = some (updBal 0 (-amount) wq) := by
  have hws1 : findWallet (updateWallet bId q (updBal 0 (-amount)) ws) bId q
      = some (updBal 0 (-amount) wq) := by
    rw [findWallet_update_same, hwq]; rfl
  simp only [execute_trade_settlement, hwq]
  split <;> split <;> split <;>
    simp only [] <;>
    (repeat
      first
      | rw [findWallet_update_other _ _ _ _ _ _ _ (Or.inr (Ne.symm hbq))]
      | rw [findWallet_update_other _ _ _ _ _ _ _ (Or.inl hbs)]) <;>
    exact hws1

/-- C10.  A BUY submitted as a price-less market order computes a required
lock of `quantity * 0 = 0`: the balance check passes for any quote wallet
(with the invariant's nonnegative balance), the order is admitted PENDING
with zero funds locked (the wallet is unchanged); and, when such an order
later matches, settlement subtracts the full trade notional from the
buyer's quote locked balance even though nothing was locked. -/
theorem market_buy_admitted_with_zero_lock
    (feeRate : ℚ) (s : ExchangeState) (uid : Nat) (r : OrderReq) (b q : String) (w : Wallet)
    (hside : r.side = .BUY) (hkind : r.kind = .MARKET) (hprice : r.price = none)
    (hqty : 0 < r.quantity)
    (hsplit : splitInstrument r.instrument = some (b, q))
    (hw : findWallet s.wallets uid q = some w) (hav : 0 ≤ w.available)
    (hinstr : ∀ o ∈ s.orders, o.instrument ≠ r.instrument)
    (hfresh : ∀ o ∈ s.orders, o.id ≠ s.nextId) :
    (∃ s', create_order feeRate s uid r = .ok s' ∧
      findWallet s'.wallets uid q = some w ∧
      (⟨s.nextId, uid, r.instrument, r.side, r.kind, none, r.quantity, r.quantity,
          .PENDING, s.time⟩ : Order) ∈ s'.orders) ∧
    (∀ (ws : List Wallet) (txs : List Txn) (bId sId : Nat) (qty amount fee : ℚ)
        (wq : Wallet), bId ≠ sId → b ≠ q →
      findWallet ws bId q = some wq →
      findWallet (execute_trade_settlement bId sId b q qty amount fee ws txs).1 bId q
        = some { wq with locked := wq.locked - amount }) := by
  constructor
  · have h3 : ¬(r.quantity ≤ 0) := not_le.mpr hqty
    have hfind : findOrderById
        (s.orders ++ [⟨s.nextId, uid, r.instrument, .BUY, .MARKET, none, r.quantity,
          r.quantity, .PENDING, s.time⟩]) s.nextId
        = some ⟨s.nextId, uid, r.instrument, .BUY, .MARKET, none, r.quantity,
          r.quantity, .PENDING, s.time⟩ :=
      findOrderById_append_fresh _ _ hfresh
    have hcand : candList
        ⟨s.nextId, uid, r.instrument, .BUY, .MARKET, none, r.quantity,
          r.quantity, .PENDING, s.time⟩
        (s.orders ++ [⟨s.nextId, uid, r.instrument, .BUY, .MARKET, none, r.quantity,
          r.quantity, .PENDING, s.time⟩]) = [] := by
      apply candList_eq_nil
      intro o ho
      rcases List.mem_append.mp ho with ho | ho
      · simp [isCand, hinstr o ho]
      · rw [List.mem_singleton.mp ho]
        simp [isCand, opposite]
    have hwb : writeBack
        (s.orders ++ [⟨s.nextId, uid, r.instrument, .BUY, .MARKET, none, r.quantity,
          r.quantity, .PENDING, s.time⟩])
        [⟨s.nextId, uid, r.instrument, .BUY, .MARKET, none, r.quantity,
          r.quantity, .PENDING, s.time⟩]
        = s.orders ++ [⟨s.nextId, uid, r.instrument, .BUY, .MARKET, none, r.quantity,
          r.quantity, .PENDING, s.time⟩] :=
      writeBack_snoc_fresh _ _ hfresh
    refine ⟨⟨s.orders ++ [⟨s.nextId, uid, r.instrument, .BUY, .MARKET, none, r.quantity,
        r.quantity, .PENDING, s.time⟩],
        updateWallet uid q (updBal 0 0) s.wallets, s.trades, s.txns,
        s.nextId + 1, s.time + 1⟩, ?_, ?_, ?_⟩
    · simp only [create_order, hkind, hprice, hside, hsplit]
      rw [if_neg (by simp), if_neg (by simp [priceNonpositive]), if_neg h3]
      simp only [hw]
      rw [if_neg (not_lt.mpr (by simpa using hav))]
      simp only [show r.quantity * ((none : Option ℚ).getD 0) = 0 from by simp, neg_zero,
        Except.ok.injEq]
      simp only [match_order, hfind]
      rw [if_neg (show ¬((⟨s.nextId, uid, r.instrument, .BUY, .MARKET, none, r.quantity,
        r.quantity, .PENDING, s.time⟩ : Order).remaining ≤ 0) from h3)]
      simp only [show splitInstrument
          (⟨s.nextId, uid, r.instrument, .BUY, .MARKET, none, r.quantity,
            r.quantity, .PENDING, s.time⟩ : Order).instrument = some (b, q) from hsplit,
        hcand, matchLoop, hwb]
      simp
    · rw [findWallet_update_same, hw]
      simp [updBal_zero]
    · rw [hside, hkind]
      exact List.mem_append.mpr (Or.inr (List.mem_singleton.mpr rfl))
  · intro ws txs bId sId qty amount fee wq hbs hbq hwq
    have hleg := settlement_debits_buyer_quote bId sId b q qty amount fee ws txs hbs hbq wq hwq
    rw [hleg]
    simp [updBal, sub_eq_add_neg]

/-- C10 witness: user 2's zero-balance USD wallet admits a market BUY for
1 BTC/USD, with the wallet bit-for-bit unchanged. -/
theorem market_buy_admitted_with_zero_lock_witness :
    (reqBuy.side = .BUY ∧ reqBuy.price = none ∧ 0 < reqBuy.quantity ∧
      findWallet exS0.wallets 2 "USD" = some ⟨2, 2, "USD", 0, 0⟩) ∧
    (∃ s', create_order (1/1000) exS0 2 reqBuy = .ok s' ∧
      findWallet s'.wallets 2 "USD" = some ⟨2, 2, "USD", 0, 0⟩ ∧
      (⟨1, 2, "BTC/USD", .BUY, .MARKET, none, 1, 1, .PENDING, 0⟩ : Order) ∈ s'.orders) :=
  ⟨⟨by decide, by decide, by decide, by decide⟩,
   (market_buy_admitted_with_zero_lock (1/1000) exS0 2 reqBuy "BTC" "USD" ⟨2, 2, "USD", 0, 0⟩
      (by decide) (by decide) (by decide) (by decide) (by decide) (by decide) (by decide)
      (by decide) (by decide)).1⟩

/-! ### C2: execution price is the resting order's price -/

theorem matchLoop_trades_from_cands (feeRate : ℚ) (b q : String) :
    ∀ (cs : List Order) (agg : Order) (ws : List Wallet) (txs : List Txn),
    ∀ t ∈ (matchLoop feeRate b q agg cs ws txs).trades, ∃ c ∈ cs,
      c.price = some t.price ∧
      (match agg.side with
       | .BUY => t.buyerId = agg.userId ∧ t.sellerId = c.userId
       | .SELL => t.sellerId = agg.userId ∧ t.buyerId = c.userId) := by
  intro cs
  induction cs with
  | nil => intro agg ws txs t ht; simp [matchLoop] at ht
  | cons c cs ih =>
    intro agg ws txs t ht
    rw [matchLoop] at ht
    by_cases hrem : agg.remaining ≤ 0
    · rw [if_pos hrem] at ht; simp at ht
    · rw [if_neg hrem] at ht
      rcases hp : c.price with _ | tp
      · rw [hp] at ht; simp at ht
      · rw [hp] at ht
        simp only [List.mem_cons] at ht
        rcases ht with ht | ht
        · subst ht
          refine ⟨c, List.mem_cons_self _ _, hp, ?_⟩
          cases hside : agg.side <;> simp [hside]
        · have := ih (applyFill (min agg.remaining c.remaining) agg) _ _ t ht
          rcases this with ⟨c', hc', hp', hmatch⟩
          exact ⟨c', List.mem_cons_of_mem _ hc', hp', hmatch⟩

/-- C2.  Every Trade record emitted by a matching pass is priced at the
price of one of the eligible resting orders (an opposite-side order of the
book satisfying the candidate filter), with that resting order's owner as
the counterparty — the aggressor never sets the execution price. -/
theorem trade_price_is_resting_price (feeRate : ℚ) (s : ExchangeState) (oid : Nat)
    (agg : Order) (hagg : findOrderById s.orders oid = some agg) :
    ∃ newTrades, (match_order feeRate s oid).trades = s.trades ++ newTrades ∧
      ∀ t ∈ newTrades, ∃ c ∈ s.orders,
        isCand agg c = true ∧ c.price = some t.price ∧
        (match agg.side with
         | .BUY => t.buyerId = agg.userId ∧ t.sellerId = c.userId
         | .SELL => t.sellerId = agg.userId ∧ t.buyerId = c.userId) := by
  simp only [match_order, hagg]
  by_cases hrem : agg.remaining ≤ 0
  · rw [if_pos hrem]
    exact ⟨[], by simp, by simp⟩
  · rw [if_neg hrem]
    rcases hsp : splitInstrument agg.instrument with _ | bq
    · exact ⟨[], by simp, by simp⟩
    · refine ⟨(matchLoop feeRate bq.1 bq.2 agg (candList agg s.orders) s.wallets
        s.txns).trades, rfl, ?_⟩
      intro t ht
      rcases matchLoop_trades_from_cands feeRate bq.1 bq.2 (candList agg s.orders)
        agg s.wallets s.txns t ht with ⟨c, hc, hp, hmatch⟩
      have hc' : c ∈ s.orders.filter (fun o => isCand agg o) :=
        ((List.perm_insertionSort (candLe agg.side) _).mem_iff).mp hc
      rcases List.mem_filter.mp hc' with ⟨hcmem, hcand⟩
      exact ⟨c, hcmem, hcand, hp, hmatch⟩

/-- C2 witness: the trade of the concrete market-BUY scenario is priced at
the resting SELL's price. -/
theorem trade_price_is_resting_price_witness :
    (findOrderById exS1.orders 2 = none) ∧
    (findOrderById exS2.orders 2
      = some ⟨2, 2, "BTC/USD", .BUY, .MARKET, none, 1, 0, .FILLED, 1⟩) ∧
    ∃ newTrades,
      (match_order (1/1000) exS2 2).trades = exS2.trades ++ newTrades ∧
      ∀ t ∈ newTrades, ∃ c ∈ exS2.orders,
        isCand ⟨2, 2, "BTC/USD", .BUY, .MARKET, none, 1, 0, .FILLED, 1⟩ c = true ∧
        c.price = some t.price ∧
        (match (⟨2, 2, "BTC/USD", .BUY, .MARKET, none, 1, 0, .FILLED, 1⟩ : Order).side with
         | Side.BUY =>
            t.buyerId = (⟨2, 2, "BTC/USD", .BUY, .MARKET, none, 1, 0, .FILLED, 1⟩ : Order).userId
              ∧ t.sellerId = c.userId
         | Side.SELL =>
            t.sellerId = (⟨2, 2, "BTC/USD", .BUY, .MARKET, none, 1, 0, .FILLED, 1⟩ : Order).userId
              ∧ t.buyerId = c.userId) :=
  ⟨by decide, by decide,
    trade_price_is_resting_price (1/1000) exS2 2
      ⟨2, 2, "BTC/USD", .BUY, .MARKET, none, 1, 0, .FILLED, 1⟩ (by decide)⟩

/-! ### C7: order cancellation -/

theorem setOrderStatus_mem (oid : Nat) (st : OStatus) (l : List Order) :
    ∀ x ∈ setOrderStatus oid st l,
      x ∈ l ∨ ∃ o ∈ l, x = { o with status := st } := by
  induction l with
  | nil => simp [setOrderStatus]
  | cons o l ih =>
    intro x hx
    rw [setOrderStatus] at hx
    by_cases h : o.id = oid
    · rw [if_pos h] at hx
      rcases List.mem_cons.mp hx with hx | hx
      · exact Or.inr ⟨o, List.mem_cons_self _ _, hx⟩
      · exact Or.inl (List.mem_cons_of_mem _ hx)
    · rw [if_neg h] at hx
      rcases List.mem_cons.mp hx with hx | hx
      · exact Or.inl (hx ▸ List.mem_cons_self _ _)
      · rcases ih x hx with hx' | ⟨o', ho', hx'⟩
        · exact Or.inl (List.mem_cons_of_mem _ hx')
        · exact Or.inr ⟨o', List.mem_cons_of_mem _ ho', hx'⟩

/-- C7 (amended).  `cancel_order` fails with NotFound when the order is not
the caller's, fails with InvalidState unless the status is PENDING or
PARTIALLY_FILLED, and otherwise — for a BUY order that carries a price, or
any SELL order — moves `remaining * price` (BUY) or `remaining` (SELL) from
the caller's locked balance back to available, sets the status to CANCELLED
and leaves every other order field, `remaining_quantity` included, frozen. -/
theorem cancel_order_spec (s : ExchangeState) (uid oid : Nat) :
    (findOrderOwned s.orders oid uid = none →
      cancel_order s uid oid = .error .notFound) ∧
    (∀ o, findOrderOwned s.orders oid uid = some o →
      ((¬(o.status = .PENDING ∨ o.status = .PARTIALLY_FILLED)) →
        cancel_order s uid oid = .error .invalidState) ∧
      (∀ b q p w, (o.status = .PENDING ∨ o.status = .PARTIALLY_FILLED) →
        splitInstrument o.instrument = some (b, q) →
        (o.side = .BUY → o.price = some p) →
        findWallet s.wallets uid (match o.side with | .BUY => q | .SELL => b) = some w →
        ∃ s', cancel_order s uid oid = .ok s' ∧
          findWallet s'.wallets uid (match o.side with | .BUY => q | .SELL => b)
            = some (updBal
                (match o.side with | .BUY => o.remaining * p | .SELL => o.remaining)
                (-(match o.side with | .BUY => o.remaining * p | .SELL => o.remaining)) w) ∧
          s'.orders = setOrderStatus oid .CANCELLED s.orders ∧
          ∀ o' ∈ s'.orders, o' ∈ s.orders ∨
            ∃ o'' ∈ s.orders, o' = { o'' with status := OStatus.CANCELLED })) := by
  constructor
  · intro h
    simp [cancel_order, h]
  · intro o ho
    constructor
    · intro hst
      simp only [cancel_order, ho]
      rw [if_pos hst]
    · intro b q p w hst hsp hpr hw
      simp only [cancel_order, ho]
      rw [if_neg (not_not_intro hst)]
      simp only [hsp]
      cases hside : o.side
      · rw [hpr hside]
        simp only [hside] at hw
        refine ⟨_, rfl, ?_, rfl, setOrderStatus_mem _ _ _⟩
        simp only [hside]
        rw [findWallet_update_same, hw]
        rfl
      · simp only [hside] at hw
        refine ⟨_, rfl, ?_, rfl, setOrderStatus_mem _ _ _⟩
        simp only [hside]
        rw [findWallet_update_same, hw]
        rfl

/-- C7 counterexample.  A PENDING price-less market BUY owned by the caller:
the claim's "otherwise" branch promises an unlock and a CANCELLED status,
but the code raises an unhandled `Decimal * None` TypeError
(`remaining_quantity * price` with `price = None`) — an HTTP 500, neither
NotFound nor InvalidState nor a successful cancel. -/
theorem cancel_market_buy_crashes :
    findOrderOwned
        [(⟨1, 7, "BTC/USD", .BUY, .MARKET, none, 1, 1, .PENDING, 0⟩ : Order)] 1 7
      = some ⟨1, 7, "BTC/USD", .BUY, .MARKET, none, 1, 1, .PENDING, 0⟩ ∧
    (⟨1, 7, "BTC/USD", .BUY, .MARKET, none, 1, 1, .PENDING, 0⟩ : Order).status
      = .PENDING ∧
    cancel_order
        ⟨[⟨1, 7, "BTC/USD", .BUY, .MARKET, none, 1, 1, .PENDING, 0⟩],
         [⟨1, 7, "USD", 5, 0⟩], [], [], 2, 1⟩ 7 1
      = .error .crash ∧
    (ApiError.crash ≠ ApiError.notFound ∧ ApiError.crash ≠ ApiError.invalidState) := by
  decide

/-- C7 witness: cancelling a PARTIALLY_FILLED BUY with remaining 3/10 at
price 100 unlocks `3/10 * 100` quote currency and freezes the order. -/
theorem cancel_order_spec_witness :
    ((⟨1, 9, "BTC/USD", .BUY, .LIMIT, some 100, 1, 3/10, .PARTIALLY_FILLED, 0⟩ : Order).status
        = .PENDING ∨
      (⟨1, 9, "BTC/USD", .BUY, .LIMIT, some 100, 1, 3/10, .PARTIALLY_FILLED, 0⟩ : Order).status
        = .PARTIALLY_FILLED) ∧
    findOrderOwned
        [(⟨1, 9, "BTC/USD", .BUY, .LIMIT, some 100, 1, 3/10, .PARTIALLY_FILLED, 0⟩ : Order)]
        1 9
      = some ⟨1, 9, "BTC/USD", .BUY, .LIMIT, some 100, 1, 3/10, .PARTIALLY_FILLED, 0⟩ ∧
    ∃ s', cancel_order
        ⟨[⟨1, 9, "BTC/USD", .BUY, .LIMIT, some 100, 1, 3/10, .PARTIALLY_FILLED, 0⟩],
         [⟨1, 9, "USD", 50, 40⟩], [], [], 2, 1⟩ 9 1 = .ok s' ∧
      findWallet s'.wallets 9 "USD"
        = some (updBal ((3 : ℚ)/10 * 100) (-((3 : ℚ)/10 * 100)) ⟨1, 9, "USD", 50, 40⟩) ∧
      s'.orders = setOrderStatus 1 .CANCELLED
        [⟨1, 9, "BTC/USD", .BUY, .LIMIT, some 100, 1, 3/10, .PARTIALLY_FILLED, 0⟩] ∧
      ∀ o' ∈ s'.orders,
        o' ∈ [(⟨1, 9, "BTC/USD", .BUY, .LIMIT, some 100, 1, 3/10, .PARTIALLY_FILLED, 0⟩ : Order)] ∨
        ∃ o'' ∈ [(⟨1, 9, "BTC/USD", .BUY, .LIMIT, some 100, 1, 3/10, .PARTIALLY_FILLED, 0⟩ : Order)],
          o' = { o'' with status := OStatus.CANCELLED } :=
  ⟨by decide, rfl,
    ((cancel_order_spec
        ⟨[⟨1, 9, "BTC/USD", .BUY, .LIMIT, some 100, 1, 3/10, .PARTIALLY_FILLED, 0⟩],
         [⟨1, 9, "USD", 50, 40⟩], [], [], 2, 1⟩ 9 1).2
      ⟨1, 9, "BTC/USD", .BUY, .LIMIT, some 100, 1, 3/10, .PARTIALLY_FILLED, 0⟩
      rfl).2 "BTC" "USD" 100 ⟨1, 9, "USD", 50, 40⟩
      (by decide) (by decide) (fun _ => rfl) rfl⟩

/-! ### C6: dispute resolution does not move funds -/

/-- C6 (code evaluated at the failing input).  Resolving a dispute with
`refund_to_buyer = True` on a DISPUTED trade whose escrow is LOCKED (the
seller has 1 unit locked, 0 available) sets the Escrow to REFUNDED and the
P2PTrade to CANCELLED — but leaves the seller's wallet untouched: locked
stays 1 and available stays 0; `resolve_dispute` performs no ledger
operation at all, so the escrowed amount is never given back. -/
theorem resolve_dispute_refund_leaves_funds_locked :
    p2p_stepR ⟨.DISPUTED, .LOCKED, some .OPEN, 0, 1, 1, false, 0, false⟩
        (.resolveDispute true false)
      = .ok ⟨.CANCELLED, .REFUNDED, some .RESOLVED, 0, 1, 1, false, 0, false⟩ ∧
    (⟨.CANCELLED, .REFUNDED, some .RESOLVED, 0, 1, 1, false, 0, false⟩ :
        P2PState).sellerAvailable = 0 ∧
    (⟨.CANCELLED, .REFUNDED, some .RESOLVED, 0, 1, 1, false, 0, false⟩ :
        P2PState).sellerLocked = 1 := by
  decide

/-! ### C8: escrow exclusivity -/

/-- Whether a dispute row exists and is not yet RESOLVED. -/
def disputeOpen : Option DStatus → Bool
  | none => false
  | some d => decide (d ≠ DStatus.RESOLVED)

/-- The inductive invariant tying the trade status, the escrow status and
the dispute of one P2P trade. -/
def p2pInv (s : P2PState) : Prop :=
  (s.escrowStatus = .LOCKED ↔
    (s.tradeStatus = .PENDING ∨ s.tradeStatus = .PAYMENT_SENT ∨
      s.tradeStatus = .DISPUTED)) ∧
  (disputeOpen s.dispute = true → s.tradeStatus = .DISPUTED) ∧
  s.tradeStatus ≠ .PAYMENT_RECEIVED

theorem p2pInv_step (s : P2PState) (op : P2POp) (h : p2pInv s) :
    p2pInv (p2p_step s op) := by
  obtain ⟨ts, es, dp, sa, sl, am, adAct, adAv, adEx⟩ := s
  revert h
  cases op with
  | markPaymentSent =>
    cases ts <;> cases es <;> rcases dp with _ | d <;> (try cases d) <;>
      (intro h; simp_all [p2p_step, p2p_stepR, p2pInv, disputeOpen])
  | confirmPayment =>
    cases ts <;> cases es <;> rcases dp with _ | d <;> (try cases d) <;>
      (intro h; simp_all [p2p_step, p2p_stepR, p2pInv, disputeOpen])
  | cancelTrade =>
    cases ts <;> cases es <;> rcases dp with _ | d <;> (try cases d) <;>
      (intro h; simp_all [p2p_step, p2p_stepR, p2pInv, disputeOpen])
  | fileDispute =>
    cases ts <;> cases es <;> rcases dp with _ | d <;> (try cases d) <;>
      (intro h; simp_all [p2p_step, p2p_stepR, p2pInv, disputeOpen])
  | resolveDispute r1 r2 =>
    cases r1 <;> cases r2 <;> cases ts <;> cases es <;> rcases dp with _ | d <;>
      (try cases d) <;>
      (intro h; simp_all [p2p_step, p2p_stepR, p2pInv, disputeOpen])
  | sweep =>
    cases adAct <;> cases adEx <;> cases ts <;> cases es <;> rcases dp with _ | d <;>
      (try cases d) <;>
      (intro h; simp_all [p2p_step, p2p_stepR, p2pInv, disputeOpen])

theorem p2p_step_escrow_stable (s : P2PState) (op : P2POp) (h : p2pInv s)
    (hne : s.escrowStatus ≠ .LOCKED) :
    (p2p_step s op).escrowStatus = s.escrowStatus := by
  obtain ⟨ts, es, dp, sa, sl, am, adAct, adAv, adEx⟩ := s
  revert h hne
  cases op with
  | markPaymentSent =>
    cases ts <;> cases es <;> rcases dp with _ | d <;> (try cases d) <;>
      (intro h hne; simp_all [p2p_step, p2p_stepR, p2pInv, disputeOpen])
  | confirmPayment =>
    cases ts <;> cases es <;> rcases dp with _ | d <;> (try cases d) <;>
      (intro h hne; simp_all [p2p_step, p2p_stepR, p2pInv, disputeOpen])
  | cancelTrade =>
    cases ts <;> cases es <;> rcases dp with _ | d <;> (try cases d) <;>
      (intro h hne; simp_all [p2p_step, p2p_stepR, p2pInv, disputeOpen])
  | fileDispute =>
    cases ts <;> cases es <;> rcases dp with _ | d <;> (try cases d) <;>
      (intro h hne; simp_all [p2p_step, p2p_stepR, p2pInv, disputeOpen])
  | resolveDispute r1 r2 =>
    cases r1 <;> cases r2 <;> cases ts <;> cases es <;> rcases dp with _ | d <;>
      (try cases d) <;>
      (intro h hne; simp_all [p2p_step, p2p_stepR, p2pInv, disputeOpen])
  | sweep =>
    cases adAct <;> cases adEx <;> cases ts <;> cases es <;> rcases dp with _ | d <;>
      (try cases d) <;>
      (intro h hne; simp_all [p2p_step, p2p_stepR, p2pInv, disputeOpen])

theorem p2p_step_locked_of_locked (s : P2PState) (op : P2POp)
    (h : (p2p_step s op).escrowStatus = .LOCKED) : s.escrowStatus = .LOCKED := by
  obtain ⟨ts, es, dp, sa, sl, am, adAct, adAv, adEx⟩ := s
  revert h
  cases op with
  | markPaymentSent =>
    cases ts <;> cases es <;> rcases dp with _ | d <;> (try cases d) <;>
      (intro h; simp_all [p2p_step, p2p_stepR])
  | confirmPayment =>
    cases ts <;> cases es <;> rcases dp with _ | d <;> (try cases d) <;>
      (intro h; simp_all [p2p_step, p2p_stepR])
  | cancelTrade =>
    cases ts <;> cases es <;> rcases dp with _ | d <;> (try cases d) <;>
      (intro h; simp_all [p2p_step, p2p_stepR])
  | fileDispute =>
    cases ts <;> cases es <;> rcases dp with _ | d <;> (try cases d) <;>
      (intro h; simp_all [p2p_step, p2p_stepR])
  | resolveDispute r1 r2 =>
    cases r1 <;> cases r2 <;> cases ts <;> cases es <;> rcases dp with _ | d <;>
      (try cases d) <;>
      (intro h; simp_all [p2p_step, p2p_stepR])
  | sweep =>
    cases adAct <;> cases adEx <;> cases ts <;> cases es <;> rcases dp with _ | d <;>
      (try cases d) <;>
      (intro h; simp_all [p2p_step, p2p_stepR])

theorem escrowFlips_zero (ops : List P2POp) :
    ∀ s : P2PState, p2pInv s → s.escrowStatus ≠ .LOCKED → escrowFlips s ops = 0 := by
  induction ops with
  | nil => intro s _ _; rfl
  | cons op ops ih =>
    intro s h hne
    have hst := p2p_step_escrow_stable s op h hne
    rw [escrowFlips, if_pos hst, ih (p2p_step s op) (p2pInv_step s op h) (hst ▸ hne)]

theorem escrowFlips_le_one (ops : List P2POp) :
    ∀ s : P2PState, p2pInv s → escrowFlips s ops ≤ 1 := by
  induction ops with
  | nil => intro s _; simp [escrowFlips]
  | cons op ops ih =>
    intro s h
    rw [escrowFlips]
    by_cases hch : (p2p_step s op).escrowStatus = s.escrowStatus
    · rw [if_pos hch]
      simpa using ih (p2p_step s op) (p2pInv_step s op h)
    · rw [if_neg hch]
      have hnl : (p2p_step s op).escrowStatus ≠ .LOCKED := by
        intro hl
        exact hch (hl.trans (p2p_step_locked_of_locked s op hl).symm)
      rw [escrowFlips_zero ops (p2p_step s op) (p2pInv_step s op h) hnl]

theorem resolve_ok_dispute_resolved (s : P2PState) (r1 r2 : Bool) (s' : P2PState)
    (hok : p2p_stepR s (.resolveDispute r1 r2) = .ok s') :
    s'.dispute = some .RESOLVED := by
  obtain ⟨ts, es, dp, sa, sl, am, adAct, adAv, adEx⟩ := s
  rcases dp with _ | d
  · simp [p2p_stepR] at hok
  · cases d <;> cases r1 <;> cases r2 <;>
      simp only [p2p_stepR, Except.ok.injEq] at hok <;>
      first
      | (rw [← hok])
      | exact absurd hok (by simp)

/-- C8.  Starting from a freshly created P2P trade (PENDING, escrow LOCKED,
no dispute), any sequence of lifecycle operations — payment marking, payment
confirmation, cancellation, dispute filing, dispute resolution and the
expiration sweep — changes the escrow's status at most once; and resolving
a dispute a second time fails with InvalidState and changes nothing. -/
theorem escrow_transitions_at_most_once (s0 : P2PState) (ops : List P2POp)
    (hts : s0.tradeStatus = .PENDING) (hes : s0.escrowStatus = .LOCKED)
    (hdp : s0.dispute = none) :
    escrowFlips s0 ops ≤ 1 ∧
    (∀ (s s' : P2PState) (r1 r2 : Bool),
      p2p_stepR s (.resolveDispute r1 r2) = .ok s' →
      ∀ r3 r4 : Bool,
        p2p_stepR s' (.resolveDispute r3 r4) = .error .invalidState ∧
        p2p_step s' (.resolveDispute r3 r4) = s') := by
  constructor
  · apply escrowFlips_le_one
    refine ⟨?_, ?_, ?_⟩
    · rw [hes, hts]; simp
    · rw [hdp]; simp [disputeOpen]
    · rw [hts]; simp
  · intro s s' r1 r2 hok r3 r4
    have hd := resolve_ok_dispute_resolved s r1 r2 s' hok
    constructor
    · simp [p2p_stepR, hd]
    · simp [p2p_step, p2p_stepR, hd]

/-- C8 witness: the mark-payment / confirm / cancel sequence from a fresh
trade flips the escrow at most once. -/
theorem escrow_transitions_at_most_once_witness :
    ((⟨.PENDING, .LOCKED, none, 0, 1, 1, true, 0, false⟩ : P2PState).tradeStatus
        = .PENDING ∧
      (⟨.PENDING, .LOCKED, none, 0, 1, 1, true, 0, false⟩ : P2PState).escrowStatus
        = .LOCKED ∧
      (⟨.PENDING, .LOCKED, none, 0, 1, 1, true, 0, false⟩ : P2PState).dispute = none) ∧
    escrowFlips ⟨.PENDING, .LOCKED, none, 0, 1, 1, true, 0, false⟩
      [.markPaymentSent, .confirmPayment, .cancelTrade] ≤ 1 :=
  ⟨⟨rfl, rfl, rfl⟩,
    (escrow_transitions_at_most_once
      ⟨.PENDING, .LOCKED, none, 0, 1, 1, true, 0, false⟩
      [.markPaymentSent, .confirmPayment, .cancelTrade] rfl rfl rfl).1⟩

/-! ### C9: the expiration sweep is idempotent -/

theorem processAd_deactivates (ad : Ad) (ts : List PTrade) (es : List EscrowRec)
    (ws : List Wallet) : (processAd ad ts es ws).ad.isActive = false := rfl

theorem processAd_expiry_fields (ad : Ad) (ts : List PTrade) (es : List EscrowRec)
    (ws : List Wallet) :
    (processAd ad ts es ws).ad.createdAt = ad.createdAt ∧
    (processAd ad ts es ws).ad.paymentTimeLimit = ad.paymentTimeLimit := ⟨rfl, rfl⟩

theorem sweepGo_ads_inactive (now : Nat) :
    ∀ (ads : List Ad) (ts : List PTrade) (es : List EscrowRec) (ws : List Wallet),
    ∀ ad' ∈ (sweepGo now ads ts es ws).ads,
      ¬(ad'.isActive = true ∧ adExpiredAt now ad' = true) := by
  intro ads
  induction ads with
  | nil => intro ts es ws ad' h; simp [sweepGo] at h
  | cons ad ads ih =>
    intro ts es ws ad' h
    rw [sweepGo] at h
    by_cases hc : ad.isActive = true ∧ adExpiredAt now ad = true
    · rw [if_pos hc] at h
      rcases List.mem_cons.mp h with h | h
      · rw [h, processAd_deactivates]
        simp
      · exact ih _ _ _ ad' h
    · rw [if_neg hc] at h
      rcases List.mem_cons.mp h with h | h
      · rw [h]; exact hc
      · exact ih _ _ _ ad' h

theorem sweepGo_no_trigger (now : Nat) :
    ∀ (ads : List Ad) (ts : List PTrade) (es : List EscrowRec) (ws : List Wallet),
    (∀ ad ∈ ads, ¬(ad.isActive = true ∧ adExpiredAt now ad = true)) →
    sweepGo now ads ts es ws = ⟨ads, ts, es, ws⟩ := by
  intro ads
  induction ads with
  | nil => intro ts es ws _; rfl
  | cons ad ads ih =>
    intro ts es ws h
    rw [sweepGo, if_neg (h ad (List.mem_cons_self _ _))]
    rw [ih ts es ws fun a ha => h a (List.mem_cons_of_mem _ ha)]

/-- C9.  The advertisement-expiration sweep is idempotent: at a fixed
current time, running `_check_and_expire_ads` twice yields exactly the
state of running it once — every ad the first pass processed is left
inactive, so the second pass deactivates no ad again, cancels no trade
again, and refunds no escrow again. -/
theorem check_and_expire_ads_idempotent (now : Nat) (s : SweepState) :
    check_and_expire_ads now (check_and_expire_ads now s)
      = check_and_expire_ads now s := by
  rw [check_and_expire_ads, check_and_expire_ads]
  rw [sweepGo_no_trigger now (sweepGo now s.ads s.trades s.escrows s.wallets).ads
    (sweepGo now s.ads s.trades s.escrows s.wallets).trades
    (sweepGo now s.ads s.trades s.escrows s.wallets).escrows
    (sweepGo now s.ads s.trades s.escrows s.wallets).wallets
    (sweepGo_ads_inactive now s.ads s.trades s.escrows s.wallets)]

/-! ### C1: price-time-priority matching -/

/-- The candidate set in the words of the claim: opposite-side orders on the
same instrument with status PENDING or PARTIALLY_FILLED that satisfy the
price filter (for a limit BUY aggressor a resting price at most the
aggressor's; symmetric for SELL; no filter for a market aggressor).  This is
the specification-side definition, to be compared with the source-side
filter `isCand`. -/
def claimCandidate (agg o : Order) : Prop :=
  o.instrument = agg.instrument ∧ o.side = opposite agg.side ∧
  (o.status = .PENDING ∨ o.status = .PARTIALLY_FILLED) ∧
  (∀ p, agg.price = some p → ∃ pc, o.price = some pc ∧
    (agg.side = .BUY → pc ≤ p) ∧ (agg.side = .SELL → p ≤ pc))

theorem opposite_ne (sd : Side) : opposite sd ≠ sd := by
  cases sd <;> simp [opposite]

theorem priceOk_iff (agg o : Order) :
    priceOk agg o = true ↔
    (∀ p, agg.price = some p → ∃ pc, o.price = some pc ∧
      (agg.side = .BUY → pc ≤ p) ∧ (agg.side = .SELL → p ≤ pc)) := by
  rcases hap : agg.price with _ | p
  · simp [priceOk, hap]
  · rcases hop : o.price with _ | pc
    · simp [priceOk, hap, hop]
    · cases hside : agg.side <;> simp [priceOk, hap, hop, hside]

theorem isCand_iff_claim (agg o : Order) (hid : o.id = agg.id → o.side = agg.side) :
    isCand agg o = true ↔ claimCandidate agg o := by
  constructor
  · intro h
    simp only [isCand, Bool.and_eq_true, Bool.or_eq_true, decide_eq_true_eq] at h
    obtain ⟨⟨⟨⟨h1, h2⟩, h3⟩, h4⟩, h5⟩ := h
    refine ⟨h1, h2, ?_, (priceOk_iff agg o).mp h5⟩
    rcases h3 with h3 | h3
    · exact Or.inl h3
    · exact Or.inr h3
  · intro ⟨h1, h2, h3, h4⟩
    have h5 : o.id ≠ agg.id := by
      intro he
      exact opposite_ne agg.side (h2 ▸ hid he)
    simp only [isCand, Bool.and_eq_true, Bool.or_eq_true, decide_eq_true_eq]
    refine ⟨⟨⟨⟨h1, h2⟩, ?_⟩, h5⟩, (priceOk_iff agg o).mpr h4⟩
    rcases h3 with h3 | h3
    · exact Or.inl h3
    · exact Or.inr h3

theorem optLt_trans (a b c : Option ℚ) (h1 : optLt a b) (h2 : optLt b c) : optLt a c := by
  rcases a with _ | x <;> rcases b with _ | y <;> rcases c with _ | z <;>
    simp_all [optLt]
  exact lt_trans h1 h2

theorem optLt_total (a b : Option ℚ) : optLt a b ∨ a = b ∨ optLt b a := by
  rcases a with _ | x <;> rcases b with _ | y <;> simp [optLt]
  rcases lt_trichotomy x y with h | h | h
  · exact Or.inl h
  · exact Or.inr (Or.inl h)
  · exact Or.inr (Or.inr h)

theorem candLe_total (sd : Side) (o1 o2 : Order) :
    candLe sd o1 o2 ∨ candLe sd o2 o1 := by
  cases sd <;> simp only [candLe] <;>
  · rcases optLt_total o1.price o2.price with h | h | h
    · first
      | exact Or.inl (Or.inl h)
      | exact Or.inr (Or.inl h)
    · rcases le_total o1.createdAt o2.createdAt with ht | ht
      · exact Or.inl (Or.inr ⟨h, ht⟩)
      · exact Or.inr (Or.inr ⟨h.symm, ht⟩)
    · first
      | exact Or.inr (Or.inl h)
      | exact Or.inl (Or.inl h)

theorem candLe_trans (sd : Side) (o1 o2 o3 : Order)
    (h1 : candLe sd o1 o2) (h2 : candLe sd o2 o3) : candLe sd o1 o3 := by
  cases sd <;> simp only [candLe] at h1 h2 ⊢
  · rcases h1 with h1 | ⟨he1, ht1⟩
    · rcases h2 with h2 | ⟨he2, ht2⟩
      · exact Or.inl (optLt_trans _ _ _ h1 h2)
      · exact Or.inl (he2 ▸ h1)
    · rcases h2 with h2 | ⟨he2, ht2⟩
      · exact Or.inl (he1 ▸ h2)
      · exact Or.inr ⟨he1.trans he2, le_trans ht1 ht2⟩
  · rcases h1 with h1 | ⟨he1, ht1⟩
    · rcases h2 with h2 | ⟨he2, ht2⟩
      · exact Or.inl (optLt_trans _ _ _ h2 h1)
      · exact Or.inl (he2 ▸ h1)
    · rcases h2 with h2 | ⟨he2, ht2⟩
      · exact Or.inl (he1 ▸ h2)
      · exact Or.inr ⟨he1.trans he2, le_trans ht1 ht2⟩

instance instTotalCandLe (sd : Side) : IsTotal Order (candLe sd) :=
  ⟨candLe_total sd⟩

instance instTransCandLe (sd : Side) : IsTrans Order (candLe sd) :=
  ⟨candLe_trans sd⟩

/-- The fill quantities the claim prescribes: each candidate in turn is
filled with `min(remaining, candidate.remaining)` until the aggressor's
remaining reaches 0 or candidates run out. -/
def greedyFills (r : ℚ) : List ℚ → List ℚ
  | [] => []
  | c :: cs => if r ≤ 0 then [] else min r c :: greedyFills (r - min r c) cs

/-- Junk order used as the default of positional lookups. -/
def dOrd : Order := ⟨0, 0, "", .BUY, .MARKET, none, 0, 0, .PENDING, 0⟩

theorem matchLoop_le_zero (f : ℚ) (b q : String) (agg : Order) (cs : List Order)
    (ws : List Wallet) (txs : List Txn) (h : agg.remaining ≤ 0) :
    matchLoop f b q agg cs ws txs = ⟨agg, cs, [], ws, txs, false⟩ := by
  cases cs with
  | nil => rfl
  | cons c cs => rw [matchLoop, if_pos h]

theorem matchLoop_fills (f : ℚ) (b q : String) :
    ∀ (cs : List Order) (agg : Order) (ws : List Wallet) (txs : List Txn),
    (∀ c ∈ cs, c.price ≠ none) →
    (matchLoop f b q agg cs ws txs).trades.map (fun t => t.quantity)
      = greedyFills agg.remaining (cs.map (fun o => o.remaining)) ∧
    (matchLoop f b q agg cs ws txs).agg.remaining
      = agg.remaining
        - (greedyFills agg.remaining (cs.map (fun o => o.remaining))).sum := by
  intro cs
  induction cs with
  | nil =>
    intro agg ws txs _
    exact ⟨rfl, by simp [matchLoop, greedyFills]⟩
  | cons c cs ih =>
    intro agg ws txs hp
    by_cases hr : agg.remaining ≤ 0
    · rw [matchLoop_le_zero f b q agg (c :: cs) ws txs hr]
      constructor
      · simp [greedyFills, hr]
      · simp [greedyFills, hr]
    · rcases hcp : c.price with _ | tp
      · exact absurd hcp (hp c (List.mem_cons_self _ _))
      · have ihh := ih (applyFill (min agg.remaining c.remaining) agg)
          (execute_trade_settlement
            (match agg.side with | .BUY => agg.userId | .SELL => c.userId)
            (match agg.side with | .BUY => c.userId | .SELL => agg.userId)
            b q (min agg.remaining c.remaining)
            (min agg.remaining c.remaining * tp)
            (min agg.remaining c.remaining * tp * f) ws txs).1
          (execute_trade_settlement
            (match agg.side with | .BUY => agg.userId | .SELL => c.userId)
            (match agg.side with | .BUY => c.userId | .SELL => agg.userId)
            b q (min agg.remaining c.remaining)
            (min agg.remaining c.remaining * tp)
            (min agg.remaining c.remaining * tp * f) ws txs).2
          (fun c' hc' => hp c' (List.mem_cons_of_mem _ hc'))
        constructor
        · simp only [matchLoop, if_neg hr, hcp, List.map_cons]
          rw [greedyFills, if_neg hr]
          have happ : (applyFill (min agg.remaining c.remaining) agg).remaining
              = agg.remaining - min agg.remaining c.remaining := rfl
          rw [ihh.1, happ]
        · simp only [matchLoop, if_neg hr, hcp, List.map_cons]
          rw [greedyFills, if_neg hr, List.sum_cons]
          have happ : (applyFill (min agg.remaining c.remaining) agg).remaining
              = agg.remaining - min agg.remaining c.remaining := rfl
          rw [ihh.2, happ, sub_sub]

theorem matchLoop_cands_length (f : ℚ) (b q : String) :
    ∀ (cs : List Order) (agg : Order) (ws : List Wallet) (txs : List Txn),
    (matchLoop f b q agg cs ws txs).cands.length = cs.length := by
  intro cs
  induction cs with
  | nil => intro agg ws txs; rfl
  | cons c cs ih =>
    intro agg ws txs
    by_cases hr : agg.remaining ≤ 0
    · rw [matchLoop, if_pos hr]
    · rcases hcp : c.price with _ | tp
      · rw [matchLoop, if_neg hr, hcp]
      · simp only [matchLoop, if_neg hr, hcp, List.length_cons]
        rw [ih]

theorem matchLoop_priority (f : ℚ) (b q : String) :
    ∀ (cs : List Order) (agg : Order) (ws : List Wallet) (txs : List Txn) (i j : Nat),
    i < j → j < cs.length →
    ((matchLoop f b q agg cs ws txs).cands.getD j dOrd).remaining
        < (cs.getD j dOrd).remaining →
    ((matchLoop f b q agg cs ws txs).cands.getD i dOrd).remaining = 0 := by
  intro cs
  induction cs with
  | nil =>
    intro agg ws txs i j _ hj _
    exact absurd hj (Nat.not_lt_zero j)
  | cons c cs ih =>
    intro agg ws txs i j hij hj htouch
    by_cases hr : agg.remaining ≤ 0
    · rw [matchLoop, if_pos hr] at htouch
      exact absurd htouch (lt_irrefl _)
    · rcases hcp : c.price with _ | tp
      · rw [matchLoop, if_neg hr, hcp] at htouch
        exact absurd htouch (lt_irrefl _)
      · rcases j with _ | j'
        · exact absurd hij (Nat.not_lt_zero i)
        simp only [matchLoop, if_neg hr, hcp, List.getD_cons_succ] at htouch ⊢
        -- the tail loop really filled something, so the aggressor was not exhausted
        have hagg' : ¬((applyFill (min agg.remaining c.remaining) agg).remaining ≤ 0) := by
          intro hle
          rw [matchLoop_le_zero _ _ _ _ _ _ _ hle] at htouch
          exact absurd htouch (lt_irrefl _)
        cases i with
        | zero =>
          simp only [List.getD_cons_zero]
          have happ : (applyFill (min agg.remaining c.remaining) agg).remaining
              = agg.remaining - min agg.remaining c.remaining := rfl
          rw [happ] at hagg'
          have hlt : min agg.remaining c.remaining < agg.remaining := by
            by_contra hge
            exact hagg' (by linarith [not_lt.mp hge])
          have hmin : min agg.remaining c.remaining = c.remaining := by
            rcases min_cases agg.remaining c.remaining with ⟨hm, _⟩ | ⟨hm, _⟩
            · exact absurd (hm ▸ hlt) (lt_irrefl _)
            · exact hm
          show (applyFill (min agg.remaining c.remaining) c).remaining = 0
          have : (applyFill (min agg.remaining c.remaining) c).remaining
              = c.remaining - min agg.remaining c.remaining := rfl
          rw [this, hmin, sub_self]
        | succ i' =>
          simp only [List.getD_cons_succ]
          exact ih _ _ _ i' j' (Nat.lt_of_succ_lt_succ hij)
            (Nat.lt_of_succ_lt_succ hj) htouch

theorem optLt_irrefl (a : Option ℚ) : ¬optLt a a := by
  cases a <;> simp [optLt]

/-- C1 (amended).  For an aggressor against a book (with distinct row ids),
(1) the candidate list the pass iterates over contains exactly the orders
the claim describes — opposite side, same instrument, status PENDING or
PARTIALLY_FILLED, satisfying the price filter; (2) it is visited in
price-time-priority order; (3) provided every candidate carries a price, the
fill quantities are exactly the greedy `min(remaining, remaining)` sequence
and the aggressor's remaining decreases by their sum; (4) a later candidate
is touched only after every earlier one is fully exhausted; and (5) in
particular, of two candidates at the same price, the earlier-created one is
filled in full before the later one is touched. -/
theorem match_order_price_time_priority
    (feeRate : ℚ) (b q : String) (agg : Order) (orders : List Order)
    (ws : List Wallet) (txs : List Txn)
    (hid : ∀ o ∈ orders, o.id = agg.id → o.side = agg.side) :
    (∀ o, o ∈ candList agg orders ↔ o ∈ orders ∧ claimCandidate agg o) ∧
    List.Sorted (candLe agg.side) (candList agg orders) ∧
    ((∀ c ∈ candList agg orders, c.price ≠ none) →
      (matchLoop feeRate b q agg (candList agg orders) ws txs).trades.map
          (fun t => t.quantity)
        = greedyFills agg.remaining ((candList agg orders).map (fun o => o.remaining)) ∧
      (matchLoop feeRate b q agg (candList agg orders) ws txs).agg.remaining
        = agg.remaining
          - (greedyFills agg.remaining
              ((candList agg orders).map (fun o => o.remaining))).sum) ∧
    (∀ i j : Nat, i < j → j < (candList agg orders).length →
      ((matchLoop feeRate b q agg (candList agg orders) ws
            txs).cands.getD j dOrd).remaining
          < ((candList agg orders).getD j dOrd).remaining →
      ((matchLoop feeRate b q agg (candList agg orders) ws
            txs).cands.getD i dOrd).remaining = 0) ∧
    (∀ i j : Nat, i < (candList agg orders).length →
      j < (candList agg orders).length →
      ((candList agg orders).getD i dOrd).price
          = ((candList agg orders).getD j dOrd).price →
      ((candList agg orders).getD i dOrd).createdAt
          < ((candList agg orders).getD j dOrd).createdAt →
      ((matchLoop feeRate b q agg (candList agg orders) ws
            txs).cands.getD j dOrd).remaining
          < ((candList agg orders).getD j dOrd).remaining →
      ((matchLoop feeRate b q agg (candList agg orders) ws
            txs).cands.getD i dOrd).remaining = 0) := by
  have hsorted : List.Sorted (candLe agg.side) (candList agg orders) := by
    rw [candList]
    exact List.sorted_insertionSort _ _
  refine ⟨?_, hsorted, ?_, ?_, ?_⟩
  · intro o
    constructor
    · intro h
      have hf : o ∈ orders.filter (fun o => isCand agg o) :=
        ((List.perm_insertionSort (candLe agg.side) _).mem_iff).mp h
      rcases List.mem_filter.mp hf with ⟨hm, hc⟩
      exact ⟨hm, (isCand_iff_claim agg o (hid o hm)).mp hc⟩
    · intro ⟨hm, hc⟩
      refine ((List.perm_insertionSort (candLe agg.side) _).mem_iff).mpr ?_
      exact List.mem_filter.mpr ⟨hm, (isCand_iff_claim agg o (hid o hm)).mpr hc⟩
  · intro hp
    exact matchLoop_fills feeRate b q _ agg ws txs hp
  · intro i j hij hj htouch
    exact matchLoop_priority feeRate b q _ agg ws txs i j hij hj htouch
  · intro i j hi hj hpeq htlt htouch
    have hij : i < j := by
      rcases Nat.lt_trichotomy i j with h | h | h
      · exact h
      · exfalso; rw [h] at htlt; exact lt_irrefl _ htlt
      · exfalso
        have hs := hsorted.rel_get_of_lt
          (show (⟨j, hj⟩ : Fin (candList agg orders).length) < ⟨i, hi⟩ from h)
        rw [List.getD_eq_get _ dOrd hi, List.getD_eq_get _ dOrd hj] at hpeq htlt
        cases hside : agg.side <;> rw [hside] at hs <;> simp only [candLe] at hs
        · rcases hs with hs | ⟨_, hs⟩
          · rw [← hpeq] at hs
            exact optLt_irrefl _ hs
          · exact absurd htlt (not_lt.mpr hs)
        · rcases hs with hs | ⟨_, hs⟩
          · rw [hpeq] at hs
            exact optLt_irrefl _ hs
          · exact absurd htlt (not_lt.mpr hs)
    exact matchLoop_priority feeRate b q _ agg ws txs i j hij hj htouch

/-- C1 counterexample.  A price-less market BUY aggressor meeting a resting
price-less market SELL: the SELL is an eligible candidate with remaining 1,
the aggressor has remaining 1, so the claim demands a fill of
`min(1,1) = 1`; the code instead crashes on `trade_quantity * None` before
any fill — the pass aborts with no trades and the aggressor's remaining
still 1 (the whole state is unchanged). -/
theorem market_match_crashes_on_priceless_candidate :
    candList ⟨2, 2, "BTC/USD", .BUY, .MARKET, none, 1, 1, .PENDING, 1⟩
        [⟨1, 1, "BTC/USD", .SELL, .MARKET, none, 1, 1, .PENDING, 0⟩,
         ⟨2, 2, "BTC/USD", .BUY, .MARKET, none, 1, 1, .PENDING, 1⟩]
      = [⟨1, 1, "BTC/USD", .SELL, .MARKET, none, 1, 1, .PENDING, 0⟩] ∧
    (matchLoop 0 "BTC" "USD" ⟨2, 2, "BTC/USD", .BUY, .MARKET, none, 1, 1, .PENDING, 1⟩
        [⟨1, 1, "BTC/USD", .SELL, .MARKET, none, 1, 1, .PENDING, 0⟩] [] []).crashed
      = true ∧
    match_order 0
        ⟨[⟨1, 1, "BTC/USD", .SELL, .MARKET, none, 1, 1, .PENDING, 0⟩,
          ⟨2, 2, "BTC/USD", .BUY, .MARKET, none, 1, 1, .PENDING, 1⟩],
         [], [], [], 3, 2⟩ 2
      = ⟨[⟨1, 1, "BTC/USD", .SELL, .MARKET, none, 1, 1, .PENDING, 0⟩,
          ⟨2, 2, "BTC/USD", .BUY, .MARKET, none, 1, 1, .PENDING, 1⟩],
         [], [], [], 3, 2⟩ := by
  decide

/-- C1 witness: two same-price SELLs, the candidate list of a limit BUY
aggressor is sorted in price-time-priority order. -/
theorem match_order_price_time_priority_witness :
    (∀ o ∈ [(⟨1, 1, "BTC/USD", .SELL, .LIMIT, some 100, 1, 1, .PENDING, 0⟩ : Order),
            ⟨2, 4, "BTC/USD", .SELL, .LIMIT, some 100, 1, 1, .PENDING, 5⟩],
        o.id = (⟨3, 7, "BTC/USD", .BUY, .LIMIT, some 100, 2, 2, .PENDING, 9⟩ : Order).id →
        o.side = (⟨3, 7, "BTC/USD", .BUY, .LIMIT, some 100, 2, 2, .PENDING, 9⟩ : Order).side) ∧
    List.Sorted (candLe (⟨3, 7, "BTC/USD", .BUY, .LIMIT, some 100, 2, 2, .PENDING, 9⟩ :
        Order).side)
      (candList ⟨3, 7, "BTC/USD", .BUY, .LIMIT, some 100, 2, 2, .PENDING, 9⟩
        [⟨1, 1, "BTC/USD", .SELL, .LIMIT, some 100, 1, 1, .PENDING, 0⟩,
         ⟨2, 4, "BTC/USD", .SELL, .LIMIT, some 100, 1, 1, .PENDING, 5⟩]) :=
  ⟨by decide,
    (match_order_price_time_priority 0 "BTC" "USD"
      ⟨3, 7, "BTC/USD", .BUY, .LIMIT, some 100, 2, 2, .PENDING, 9⟩
      [⟨1, 1, "BTC/USD", .SELL, .LIMIT, some 100, 1, 1, .PENDING, 0⟩,
       ⟨2, 4, "BTC/USD", .SELL, .LIMIT, some 100, 1, 1, .PENDING, 5⟩]
      [] [] (by decide)).2.1⟩

end Bitrader
